import Mathlib

/-!
# Pulseboard: verification of the polling scheduler and status store

Shallow embedding of the Pulseboard repository's core subsystems:

* `internal/poller/scheduler.go` — status derivation, extractor panic
  isolation, tick/GCD cadence selection, and the Start/Stop lifecycle;
* `internal/store/memory.go` — the in-memory status store with its
  pub/sub fan-out and drop-on-full backpressure;
* `pulseboard.go` — the constructor `New`, the result-consumer loop and
  the conversions between poller, store and public result types.

Durations are nanoseconds (`Nat`, matching Go's positive `time.Duration`
values used here); timestamps are `Int` nanoseconds.  Go maps are
reference values, so label maps are modelled as references
(`Option Nat`) into an explicit heap `LabelHeap`; `copyMap` allocates a
fresh reference.  A Go function that can panic (a user
`StatusExtractor`, a status callback) is modelled as returning
`Except String α`: `.error d` is a panic with payload `d`.
-/

namespace Pulseboard

/-- One second in nanoseconds (`time.Second`). -/
def second : Nat := 1000000000

/-- A label map value: the key/value pairs held by a Go
`map[string]string`. -/
abbrev LabelMap := List (String × String)

/-- The heap of allocated label maps.  A reference is an index into
`maps`; Go's `nil` map is the reference `none`. -/
structure LabelHeap where
  maps : List LabelMap
deriving Repr

/-- Allocate a fresh label map on the heap, returning the new heap and
the fresh reference. -/
def LabelHeap.alloc (h : LabelHeap) (m : LabelMap) : LabelHeap × Nat :=
  (⟨h.maps ++ [m]⟩, h.maps.length)

/-- Read the label map behind a reference. -/
def LabelHeap.read (h : LabelHeap) (r : Nat) : LabelMap :=
  h.maps.getD r []

/-- A reference is valid when it points into the heap. -/
def LabelHeap.Valid (h : LabelHeap) (r : Nat) : Prop :=
  r < h.maps.length

/-- `copyMap` (endpoint.go): returns `nil` for a `nil` map, otherwise a
fresh shallow copy — a newly allocated reference with the same
contents. -/
def copyMap (h : LabelHeap) (r : Option Nat) : LabelHeap × Option Nat :=
  match r with
  | none => (h, none)
  | some r =>
    let (h', r') := h.alloc (h.read r)
    (h', some r')

/-- `StatusExtractor` (scheduler.go): maps a response body and HTTP
status code to a status string.  `.error d` models a panic whose payload
is `d`. -/
def StatusExtractor : Type := List Nat → Int → Except String String

/-- `EndpointInfo` (scheduler.go): the poller-internal endpoint
configuration. -/
structure EndpointInfo where
  Name : String
  URL : String
  Labels : Option Nat
  Headers : Option Nat
  Timeout : Nat
  Extractor : Option StatusExtractor
  Method : String
  Interval : Nat

/-- `StatusResult` (scheduler.go): the outcome of polling a single
endpoint. -/
structure StatusResult where
  EndpointName : String
  URL : String
  Status : String
  Labels : Option Nat
  Latency : Nat
  CheckedAt : Int
  Error : Option String
  RawResponse : List Nat
  StatusCode : Int

/-- `Response` (client.go): the structured outcome `Client.Fetch` always
returns; transport failures are captured in `Error`. -/
structure Response where
  Body : List Nat
  StatusCode : Int
  Latency : Nat
  Error : Option String

/-- `httpStatusToStatus` (scheduler.go): maps HTTP status codes to
status strings. -/
def httpStatusToStatus (code : Int) : String :=
  if 200 ≤ code ∧ code < 300 then "up"
  else if 400 ≤ code ∧ code < 500 then "degraded"
  else "down"

/-- `safeExtract` (scheduler.go): calls the extractor with panic
recovery.  On a panic it returns status `"down"` and a user-facing
error that carries only the fresh correlation identifier
`correlationID` (the panic payload goes to the server-side log, not to
the returned error). -/
def safeExtract (extractor : StatusExtractor) (body : List Nat)
    (statusCode : Int) (correlationID : String) : String × Option String :=
  match extractor body statusCode with
  | .ok status => (status, none)
  | .error _ =>
    ("down", some ("extractor panic (correlation_id: " ++ correlationID ++ ")"))

/-- `pollEndpoint` (scheduler.go): probes one endpoint and derives its
status.  `resp` is the probe outcome, `correlationID` the identifier
that would be generated on an extractor panic, `now` the `CheckedAt`
timestamp. -/
def pollEndpoint (ep : EndpointInfo) (resp : Response)
    (correlationID : String) (now : Int) : StatusResult :=
  let result : StatusResult :=
    { EndpointName := ep.Name
      URL := ep.URL
      Status := ""
      Labels := ep.Labels
      Latency := resp.Latency
      CheckedAt := now
      Error := resp.Error
      RawResponse := resp.Body
      StatusCode := resp.StatusCode }
  match resp.Error with
  | some _ => { result with Status := "down" }
  | none =>
    match ep.Extractor with
    | some extractor =>
      let (status, err) := safeExtract extractor resp.Body resp.StatusCode correlationID
      match err with
      | some e => { result with Status := status, Error := some e }
      | none => { result with Status := status }
    | none => { result with Status := httpStatusToStatus resp.StatusCode }

end Pulseboard

namespace Pulseboard

/-- A concrete endpoint with no extractor, used to instantiate
hypotheses at concrete inputs. -/
def epPlain : EndpointInfo :=
  { Name := "api", URL := "http://x", Labels := none, Headers := none
    Timeout := second, Extractor := none, Method := "", Interval := 0 }

end Pulseboard

namespace Pulseboard

/-- **C1.** Status derivation in `pollEndpoint`: a non-nil transport
error forces status `"down"` whether or not an extractor is configured;
with no error and no extractor the status is a function of the HTTP
status code alone: `2xx → "up"`, `4xx → "degraded"`, everything else
(0, 1xx, 3xx, 5xx, …) → `"down"`. -/
theorem pollEndpoint_status_derivation (ep : EndpointInfo) (resp : Response)
    (correlationID : String) (now : Int) :
    (resp.Error.isSome →
      (pollEndpoint ep resp correlationID now).Status = "down")
    ∧ (resp.Error = none → ep.Extractor = none →
      ((200 ≤ resp.StatusCode ∧ resp.StatusCode < 300 →
          (pollEndpoint ep resp correlationID now).Status = "up")
        ∧ (400 ≤ resp.StatusCode ∧ resp.StatusCode < 500 →
          (pollEndpoint ep resp correlationID now).Status = "degraded")
        ∧ (¬(200 ≤ resp.StatusCode ∧ resp.StatusCode < 300) →
            ¬(400 ≤ resp.StatusCode ∧ resp.StatusCode < 500) →
          (pollEndpoint ep resp correlationID now).Status = "down"))) := by
  constructor
  · intro herr
    match hr : resp.Error with
    | some e => simp [pollEndpoint, hr]
    | none => simp [hr] at herr
  · intro herr hext
    refine ⟨?_, ?_, ?_⟩ <;> intro h
    · simp [pollEndpoint, herr, hext, httpStatusToStatus, h]
    · have h2 : ¬(200 ≤ resp.StatusCode ∧ resp.StatusCode < 300) := by omega
      simp [pollEndpoint, herr, hext, httpStatusToStatus, h, h2]
    · intro h4
      simp [pollEndpoint, herr, hext, httpStatusToStatus, h, h4]

/-- The body of one worker goroutine (`pollEndpoints`, scheduler.go):
`for ep := range jobs { result := s.pollEndpoint(ctx, ep); … }` — each
job in the queue is probed and evaluated in turn, producing one
`StatusResult` per job.  `respOf` and `cidOf` supply each endpoint's
probe outcome and the correlation identifier that would be generated
for it. -/
def workerLoop (jobs : List EndpointInfo) (respOf : EndpointInfo → Response)
    (cidOf : EndpointInfo → String) (now : Int) : List StatusResult :=
  match jobs with
  | [] => []
  | ep :: rest => pollEndpoint ep (respOf ep) (cidOf ep) now :: workerLoop rest respOf cidOf now

/-- Every job in the worker loop yields a result, and each endpoint's
result is exactly its own `pollEndpoint` value — one job's behaviour
(including an extractor panic inside it) never prevents the rest of the
loop from running. -/
theorem workerLoop_total (jobs : List EndpointInfo) (respOf : EndpointInfo → Response)
    (cidOf : EndpointInfo → String) (now : Int) :
    (workerLoop jobs respOf cidOf now).length = jobs.length
    ∧ ∀ ep ∈ jobs, pollEndpoint ep (respOf ep) (cidOf ep) now ∈ workerLoop jobs respOf cidOf now := by
  induction jobs with
  | nil => simp [workerLoop]
  | cons ep rest ih =>
    refine ⟨by simp [workerLoop, ih.1], ?_⟩
    intro e he
    rcases List.mem_cons.mp he with h | h
    · subst h; simp [workerLoop]
    · exact List.mem_cons_of_mem _ (ih.2 e h)

/-- Witness for C1 at concrete inputs: a transport-error probe is
`"down"`; with no extractor, code 204 is `"up"`, code 404 is
`"degraded"`, and code 0 (no response) is `"down"`. -/
theorem pollEndpoint_status_derivation_witness :
    (pollEndpoint epPlain ⟨[], 0, 5, some "dial tcp: timeout"⟩ "c" 0).Status = "down"
    ∧ (pollEndpoint epPlain ⟨[], 204, 5, none⟩ "c" 0).Status = "up"
    ∧ (pollEndpoint epPlain ⟨[], 404, 5, none⟩ "c" 0).Status = "degraded"
    ∧ (pollEndpoint epPlain ⟨[], 0, 5, none⟩ "c" 0).Status = "down" := by
  refine ⟨?_, ?_, ?_, ?_⟩
  · exact (pollEndpoint_status_derivation epPlain ⟨[], 0, 5, some "dial tcp: timeout"⟩ "c" 0).1
      (by simp)
  · exact ((pollEndpoint_status_derivation epPlain ⟨[], 204, 5, none⟩ "c" 0).2
      rfl rfl).1 (by decide)
  · exact ((pollEndpoint_status_derivation epPlain ⟨[], 404, 5, none⟩ "c" 0).2
      rfl rfl).2.1 (by decide)
  · exact ((pollEndpoint_status_derivation epPlain ⟨[], 0, 5, none⟩ "c" 0).2
      rfl rfl).2.2 (by decide) (by decide)

/-- An extractor that panics on every input (e.g. `panic("boom")`),
used to instantiate hypotheses at concrete inputs. -/
def exPanics : StatusExtractor := fun _ _ => .error "runtime error: index out of range"

/-- A second always-panicking extractor with a different panic payload. -/
def exPanics2 : StatusExtractor := fun _ _ => .error "assignment to entry in nil map"

/-- A concrete endpoint whose extractor always panics. -/
def epPanicky : EndpointInfo :=
  { Name := "svc", URL := "http://y", Labels := none, Headers := none
    Timeout := second, Extractor := some exPanics, Method := "", Interval := 0 }

/-- **C2.** Extractor panic isolation (`safeExtract`, scheduler.go):
when the configured extractor panics on the probe's body and status
code, the resulting `StatusResult` has status `"down"` and a non-nil
error that is exactly the correlation-identifier message — it contains
the freshly generated correlation identifier and is independent of the
panic payload, so no raw panic detail reaches the result; and the
worker loop is total: every job in any job list (the panicking endpoint
and all others, on this and any later tick) still yields its normal
`pollEndpoint` result. -/
theorem safeExtract_panic_isolation (ep : EndpointInfo) (ex : StatusExtractor)
    (resp : Response) (correlationID : String) (now : Int) (d : String)
    (hext : ep.Extractor = some ex)
    (hpanic : ex resp.Body resp.StatusCode = .error d)
    (hok : resp.Error = none) :
    ((pollEndpoint ep resp correlationID now).Status = "down")
    ∧ ((pollEndpoint ep resp correlationID now).Error =
        some ("extractor panic (correlation_id: " ++ correlationID ++ ")"))
    ∧ (∃ pre post, "extractor panic (correlation_id: " ++ correlationID ++ ")"
        = pre ++ correlationID ++ post)
    ∧ (∀ (ex2 : StatusExtractor) (d2 : String),
        ex2 resp.Body resp.StatusCode = .error d2 →
        (pollEndpoint { ep with Extractor := some ex2 } resp correlationID now).Error =
          (pollEndpoint ep resp correlationID now).Error)
    ∧ (∀ (jobs : List EndpointInfo) (respOf : EndpointInfo → Response)
          (cidOf : EndpointInfo → String),
        (workerLoop jobs respOf cidOf now).length = jobs.length
        ∧ ∀ e ∈ jobs, pollEndpoint e (respOf e) (cidOf e) now ∈ workerLoop jobs respOf cidOf now) := by
  refine ⟨?_, ?_, ?_, ?_, ?_⟩
  · simp [pollEndpoint, hok, hext, safeExtract, hpanic]
  · simp [pollEndpoint, hok, hext, safeExtract, hpanic]
  · exact ⟨"extractor panic (correlation_id: ", ")", by simp⟩
  · intro ex2 d2 hpanic2
    simp [pollEndpoint, hok, hext, safeExtract, hpanic, hpanic2]
  · intro jobs respOf cidOf
    exact workerLoop_total jobs respOf cidOf now

/-- Witness for C2 at concrete inputs: the always-panicking extractor
on a successful probe yields status `"down"` with exactly the
correlation-identifier error message, and a two-endpoint worker loop
containing the panicking endpoint still produces a result for the
healthy endpoint. -/
theorem safeExtract_panic_isolation_witness :
    (pollEndpoint epPanicky ⟨[1, 2], 200, 5, none⟩ "cid-42" 0).Status = "down"
    ∧ (pollEndpoint epPanicky ⟨[1, 2], 200, 5, none⟩ "cid-42" 0).Error =
        some "extractor panic (correlation_id: cid-42)"
    ∧ (workerLoop [epPanicky, epPlain] (fun _ => ⟨[1, 2], 200, 5, none⟩)
        (fun _ => "cid-42") 0).length = 2
    ∧ pollEndpoint epPlain ⟨[1, 2], 200, 5, none⟩ "cid-42" 0 ∈
        workerLoop [epPanicky, epPlain] (fun _ => ⟨[1, 2], 200, 5, none⟩)
          (fun _ => "cid-42") 0 := by
  have h := safeExtract_panic_isolation epPanicky exPanics ⟨[1, 2], 200, 5, none⟩
    "cid-42" 0 "runtime error: index out of range" rfl rfl rfl
  refine ⟨h.1, ?_, ?_, ?_⟩
  · have := h.2.1
    simpa using this
  · exact (h.2.2.2.2 [epPanicky, epPlain] (fun _ => ⟨[1, 2], 200, 5, none⟩)
      (fun _ => "cid-42")).1
  · exact (h.2.2.2.2 [epPanicky, epPlain] (fun _ => ⟨[1, 2], 200, 5, none⟩)
      (fun _ => "cid-42")).2 epPlain (by simp)

/-- `gcdDuration` (scheduler.go): Euclid's loop
`for b != 0 { a, b = b, a%b }; return a`. -/
def gcdDuration (a b : Nat) : Nat :=
  if h : b = 0 then a else gcdDuration b (a % b)
termination_by b
decreasing_by exact Nat.mod_lt _ (Nat.pos_of_ne_zero h)

/-- `gcdDuration` computes the greatest common divisor. -/
theorem gcdDuration_eq_gcd (a b : Nat) : gcdDuration a b = Nat.gcd a b := by
  induction b using Nat.strong_induction_on generalizing a with
  | _ b ih =>
    rw [gcdDuration]
    split
    · rename_i h; subst h; simp
    · rename_i h
      rw [ih (a % b) (Nat.mod_lt _ (Nat.pos_of_ne_zero h)) b]
      rw [Nat.gcd_comm b (a % b), ← Nat.gcd_rec, Nat.gcd_comm]

/-- The effective interval of an endpoint: its own interval when set,
else the scheduler's global default (the per-loop computation in
`calculateBaseInterval` and `pollDueEndpoints`). -/
def effectiveInterval (interval : Nat) (ep : EndpointInfo) : Nat :=
  if ep.Interval > 0 then ep.Interval else interval

/-- `calculateBaseInterval` (scheduler.go): the GCD of every endpoint's
effective interval, floored at one second. -/
def calculateBaseInterval (endpoints : List EndpointInfo) (interval : Nat) : Nat :=
  match endpoints with
  | [] => interval
  | ep0 :: rest =>
    let intervals := (ep0 :: rest).map (effectiveInterval interval)
    let result := intervals.tail.foldl gcdDuration intervals.headI
    if result < second then second else result

/-- Association-map lookup on the scheduler's `lastPolledAt` map. -/
def lookupTime : List (String × Int) → String → Option Int
  | [], _ => none
  | (k, t) :: rest, name => if k = name then some t else lookupTime rest name

/-- Association-map store on the scheduler's `lastPolledAt` map
(`s.lastPolledAt[ep.Name] = now`). -/
def setTime : List (String × Int) → String → Int → List (String × Int)
  | [], name, t => [(name, t)]
  | (k, v) :: rest, name, t =>
    if k = name then (name, t) :: rest else (k, v) :: setTime rest name t

theorem lookupTime_setTime_self (m : List (String × Int)) (k : String) (t : Int) :
    lookupTime (setTime m k t) k = some t := by
  induction m with
  | nil => simp [setTime, lookupTime]
  | cons p rest ih =>
    obtain ⟨k', v⟩ := p
    by_cases h : k' = k <;> simp [setTime, lookupTime, h, ih]

theorem lookupTime_setTime_other (m : List (String × Int)) (k k' : String) (t : Int)
    (h : k' ≠ k) : lookupTime (setTime m k t) k' = lookupTime m k' := by
  have h' : k ≠ k' := Ne.symm h
  induction m with
  | nil => simp [setTime, lookupTime, h']
  | cons p rest ih =>
    obtain ⟨k0, v⟩ := p
    by_cases h0 : k0 = k
    · subst h0
      simp [setTime, lookupTime, h']
    · simp only [setTime, if_neg h0, lookupTime]
      split <;> simp [ih]

/-- The loop body of `pollDueEndpoints` (scheduler.go): walks the
endpoint list, appends each due endpoint to the due slice and stamps
its `lastPolledAt` entry with the tick's `now`.  With `immediate` every
endpoint is due; otherwise an endpoint is due when it has no
`lastPolledAt` entry or `now - lastPolled ≥ interval` for its effective
interval. -/
def pollDueSelect (endpoints : List EndpointInfo) (interval : Nat)
    (lastPolledAt : List (String × Int)) (now : Int) (immediate : Bool) :
    List EndpointInfo × List (String × Int) :=
  match endpoints with
  | [] => ([], lastPolledAt)
  | ep :: rest =>
    if immediate then
      let r := pollDueSelect rest interval (setTime lastPolledAt ep.Name now) now immediate
      (ep :: r.1, r.2)
    else
      let epInterval := if ep.Interval = 0 then interval else ep.Interval
      match lookupTime lastPolledAt ep.Name with
      | none =>
        let r := pollDueSelect rest interval (setTime lastPolledAt ep.Name now) now immediate
        (ep :: r.1, r.2)
      | some lastPolled =>
        if (epInterval : Int) ≤ now - lastPolled then
          let r := pollDueSelect rest interval (setTime lastPolledAt ep.Name now) now immediate
          (ep :: r.1, r.2)
        else
          pollDueSelect rest interval lastPolledAt now immediate

theorem pollDueSelect_cons_imm (ep : EndpointInfo) (rest : List EndpointInfo)
    (interval : Nat) (m : List (String × Int)) (now : Int) :
    pollDueSelect (ep :: rest) interval m now true =
      (ep :: (pollDueSelect rest interval (setTime m ep.Name now) now true).1,
        (pollDueSelect rest interval (setTime m ep.Name now) now true).2) := rfl

theorem pollDueSelect_cons_none (ep : EndpointInfo) (rest : List EndpointInfo)
    (interval : Nat) (m : List (String × Int)) (now : Int)
    (hl : lookupTime m ep.Name = none) :
    pollDueSelect (ep :: rest) interval m now false =
      (ep :: (pollDueSelect rest interval (setTime m ep.Name now) now false).1,
        (pollDueSelect rest interval (setTime m ep.Name now) now false).2) := by
  simp [pollDueSelect, hl]

theorem pollDueSelect_cons_due (ep : EndpointInfo) (rest : List EndpointInfo)
    (interval : Nat) (m : List (String × Int)) (now t : Int)
    (hl : lookupTime m ep.Name = some t)
    (hd : ((if ep.Interval = 0 then interval else ep.Interval : Nat) : Int) ≤ now - t) :
    pollDueSelect (ep :: rest) interval m now false =
      (ep :: (pollDueSelect rest interval (setTime m ep.Name now) now false).1,
        (pollDueSelect rest interval (setTime m ep.Name now) now false).2) := by
  push_cast at hd
  simp [pollDueSelect, hl, hd]

theorem pollDueSelect_cons_notdue (ep : EndpointInfo) (rest : List EndpointInfo)
    (interval : Nat) (m : List (String × Int)) (now t : Int)
    (hl : lookupTime m ep.Name = some t)
    (hd : ¬((if ep.Interval = 0 then interval else ep.Interval : Nat) : Int) ≤ now - t) :
    pollDueSelect (ep :: rest) interval m now false =
      pollDueSelect rest interval m now false := by
  push_cast at hd
  simp [pollDueSelect, hl, hd]

/-- One scheduler tick: select the due endpoints (stamping their
dispatch time), then run the worker pool over them.  `respOf`/`cidOf`
supply the probe outcomes — the returned timing map is produced before
any probe runs. -/
def schedulerTick (endpoints : List EndpointInfo) (interval : Nat)
    (lastPolledAt : List (String × Int)) (now : Int) (immediate : Bool)
    (respOf : EndpointInfo → Response) (cidOf : EndpointInfo → String) :
    List StatusResult × List (String × Int) :=
  let (due, m) := pollDueSelect endpoints interval lastPolledAt now immediate
  (workerLoop due respOf cidOf now, m)

/-- The spec's due condition: never polled, or elapsed time since the
last recorded poll start meets or exceeds the effective interval. -/
def dueSpec (ep : EndpointInfo) (interval : Nat) (lastPolledAt : List (String × Int))
    (now : Int) : Prop :=
  lookupTime lastPolledAt ep.Name = none
    ∨ ∃ t, lookupTime lastPolledAt ep.Name = some t
        ∧ ((if ep.Interval = 0 then interval else ep.Interval : Nat) : Int) ≤ now - t

/-- The due list selected by `pollDueSelect` is a sublist of the
endpoint list. -/
theorem pollDueSelect_subset (endpoints : List EndpointInfo) (interval : Nat)
    (lastPolledAt : List (String × Int)) (now : Int) (immediate : Bool) :
    ∀ ep ∈ (pollDueSelect endpoints interval lastPolledAt now immediate).1, ep ∈ endpoints := by
  induction endpoints generalizing lastPolledAt with
  | nil => simp [pollDueSelect]
  | cons ep0 rest ih =>
    intro ep hmem
    cases immediate with
    | true =>
      rw [pollDueSelect_cons_imm] at hmem
      rcases List.mem_cons.mp hmem with h | h
      · simp [h]
      · exact List.mem_cons_of_mem _ (ih _ _ h)
    | false =>
      rcases hl : lookupTime lastPolledAt ep0.Name with _ | t
      · rw [pollDueSelect_cons_none _ _ _ _ _ hl] at hmem
        rcases List.mem_cons.mp hmem with h | h
        · simp [h]
        · exact List.mem_cons_of_mem _ (ih _ _ h)
      · by_cases hd : ((if ep0.Interval = 0 then interval else ep0.Interval : Nat) : Int) ≤ now - t
        · rw [pollDueSelect_cons_due _ _ _ _ _ _ hl hd] at hmem
          rcases List.mem_cons.mp hmem with h | h
          · simp [h]
          · exact List.mem_cons_of_mem _ (ih _ _ h)
        · rw [pollDueSelect_cons_notdue _ _ _ _ _ _ hl hd] at hmem
          exact List.mem_cons_of_mem _ (ih _ _ hmem)

/-- Every `lastPolledAt` entry after a selection pass is either
untouched or stamped with the tick's `now`. -/
theorem pollDueSelect_lookup_cases (endpoints : List EndpointInfo) (interval : Nat)
    (lastPolledAt : List (String × Int)) (now : Int) (immediate : Bool) (k : String) :
    lookupTime (pollDueSelect endpoints interval lastPolledAt now immediate).2 k
        = lookupTime lastPolledAt k
    ∨ lookupTime (pollDueSelect endpoints interval lastPolledAt now immediate).2 k = some now := by
  induction endpoints generalizing lastPolledAt with
  | nil => simp [pollDueSelect]
  | cons ep0 rest ih =>
    have step : ∀ m' : List (String × Int), m' = setTime lastPolledAt ep0.Name now →
        lookupTime (pollDueSelect rest interval m' now immediate).2 k = lookupTime lastPolledAt k
        ∨ lookupTime (pollDueSelect rest interval m' now immediate).2 k = some now := by
      intro m' hm'
      subst hm'
      by_cases hk : k = ep0.Name
      · rcases ih (setTime lastPolledAt ep0.Name now) with h | h
        · right; rw [h, hk, lookupTime_setTime_self]
        · right; exact h
      · rcases ih (setTime lastPolledAt ep0.Name now) with h | h
        · left; rw [h, lookupTime_setTime_other _ _ _ _ hk]
        · right; exact h
    cases immediate with
    | true =>
      rw [pollDueSelect_cons_imm]
      exact step _ rfl
    | false =>
      rcases hl : lookupTime lastPolledAt ep0.Name with _ | t
      · rw [pollDueSelect_cons_none _ _ _ _ _ hl]
        exact step _ rfl
      · by_cases hd : ((if ep0.Interval = 0 then interval else ep0.Interval : Nat) : Int) ≤ now - t
        · rw [pollDueSelect_cons_due _ _ _ _ _ _ hl hd]
          exact step _ rfl
        · rw [pollDueSelect_cons_notdue _ _ _ _ _ _ hl hd]
          exact ih lastPolledAt

/-- A name that belongs to no endpoint in the list keeps its
`lastPolledAt` entry across a selection pass. -/
theorem pollDueSelect_lookup_notmem (endpoints : List EndpointInfo) (interval : Nat)
    (m : List (String × Int)) (now : Int) (immediate : Bool) (k : String)
    (hk : k ∉ endpoints.map EndpointInfo.Name) :
    lookupTime (pollDueSelect endpoints interval m now immediate).2 k = lookupTime m k := by
  induction endpoints generalizing m with
  | nil => simp [pollDueSelect]
  | cons ep0 rest ih =>
    have hk0 : k ≠ ep0.Name := by
      intro h; exact hk (by simp [h])
    have hkr : k ∉ rest.map EndpointInfo.Name := by
      intro h; exact hk (by simp [h])
    have hset : lookupTime (setTime m ep0.Name now) k = lookupTime m k :=
      lookupTime_setTime_other _ _ _ _ hk0
    cases immediate with
    | true =>
      rw [pollDueSelect_cons_imm]
      rw [ih _ hkr, hset]
    | false =>
      rcases hl : lookupTime m ep0.Name with _ | t
      · rw [pollDueSelect_cons_none _ _ _ _ _ hl]
        rw [ih _ hkr, hset]
      · by_cases hd : ((if ep0.Interval = 0 then interval else ep0.Interval : Nat) : Int) ≤ now - t
        · rw [pollDueSelect_cons_due _ _ _ _ _ _ hl hd]
          rw [ih _ hkr, hset]
        · rw [pollDueSelect_cons_notdue _ _ _ _ _ _ hl hd]
          exact ih _ hkr

/-- On the first pass (`immediate = true`) every endpoint is selected
as due. -/
theorem pollDueSelect_imm_due (endpoints : List EndpointInfo) (interval : Nat)
    (m : List (String × Int)) (now : Int) :
    (pollDueSelect endpoints interval m now true).1 = endpoints := by
  induction endpoints generalizing m with
  | nil => simp [pollDueSelect]
  | cons ep0 rest ih =>
    rw [pollDueSelect_cons_imm, ih]

/-- On the first pass every endpoint's `lastPolledAt` entry is stamped
with the tick's `now`. -/
theorem pollDueSelect_imm_stamp (endpoints : List EndpointInfo) (interval : Nat)
    (m : List (String × Int)) (now : Int) :
    ∀ ep ∈ endpoints,
      lookupTime (pollDueSelect endpoints interval m now true).2 ep.Name = some now := by
  induction endpoints generalizing m with
  | nil => simp
  | cons ep0 rest ih =>
    intro ep hep
    rw [pollDueSelect_cons_imm]
    rcases List.mem_cons.mp hep with h | h
    · subst h
      rcases pollDueSelect_lookup_cases rest interval (setTime m ep.Name now) now true ep.Name
        with hc | hc
      · rw [hc, lookupTime_setTime_self]
      · exact hc
    · exact ih _ ep h

/-- `dueSpec` only depends on the endpoint's `lastPolledAt` entry. -/
theorem dueSpec_congr (ep : EndpointInfo) (interval : Nat)
    (m m' : List (String × Int)) (now : Int)
    (h : lookupTime m' ep.Name = lookupTime m ep.Name) :
    dueSpec ep interval m' now ↔ dueSpec ep interval m now := by
  unfold dueSpec
  rw [h]

/-- With unique endpoint names, the due list of a non-immediate pass
selects exactly the endpoints satisfying the spec's due condition. -/
theorem pollDueSelect_due_iff (endpoints : List EndpointInfo) (interval : Nat)
    (m : List (String × Int)) (now : Int)
    (hnd : (endpoints.map EndpointInfo.Name).Nodup) :
    ∀ ep ∈ endpoints,
      (ep ∈ (pollDueSelect endpoints interval m now false).1 ↔
        dueSpec ep interval m now) := by
  induction endpoints generalizing m with
  | nil => simp
  | cons ep0 rest ih =>
    have hnd0 : ep0.Name ∉ rest.map EndpointInfo.Name := by
      simpa using (List.nodup_cons.mp hnd).1
    have hndr : (rest.map EndpointInfo.Name).Nodup := (List.nodup_cons.mp hnd).2
    have hep0_notin_rest : ep0 ∉ rest := by
      intro h; exact hnd0 (List.mem_map_of_mem _ h)
    intro ep hep
    rcases List.mem_cons.mp hep with h | hmem
    · subst h
      rcases hl : lookupTime m ep.Name with _ | t
      · rw [pollDueSelect_cons_none _ _ _ _ _ hl]
        simp [dueSpec, hl]
      · by_cases hd : ((if ep.Interval = 0 then interval else ep.Interval : Nat) : Int) ≤ now - t
        · rw [pollDueSelect_cons_due _ _ _ _ _ _ hl hd]
          simp only [List.mem_cons, true_or]
          constructor
          · intro _; exact Or.inr ⟨t, hl, hd⟩
          · intro _; exact trivial
        · rw [pollDueSelect_cons_notdue _ _ _ _ _ _ hl hd]
          constructor
          · intro hmem'
            exact absurd (pollDueSelect_subset rest interval m now false ep hmem')
              hep0_notin_rest
          · intro hspec
            rcases hspec with hnone | ⟨t', ht', hc⟩
            · rw [hl] at hnone; exact absurd hnone (by simp)
            · rw [hl] at ht'
              injection ht' with ht'
              subst ht'
              exact absurd hc hd
    · have hname : ep.Name ≠ ep0.Name := by
        intro h
        exact hnd0 (h ▸ List.mem_map_of_mem _ hmem)
      have hne : ep ≠ ep0 := by
        intro h; exact hname (by rw [h])
      have hcong : ∀ m'', lookupTime (setTime m'' ep0.Name now) ep.Name = lookupTime m'' ep.Name :=
        fun m'' => lookupTime_setTime_other _ _ _ _ hname
      rcases hl : lookupTime m ep0.Name with _ | t
      · rw [pollDueSelect_cons_none _ _ _ _ _ hl]
        simp only [List.mem_cons]
        rw [or_iff_right hne]
        rw [ih _ hndr ep hmem]
        exact dueSpec_congr ep interval m _ now (hcong m)
      · by_cases hd : ((if ep0.Interval = 0 then interval else ep0.Interval : Nat) : Int) ≤ now - t
        · rw [pollDueSelect_cons_due _ _ _ _ _ _ hl hd]
          simp only [List.mem_cons]
          rw [or_iff_right hne]
          rw [ih _ hndr ep hmem]
          exact dueSpec_congr ep interval m _ now (hcong m)
        · rw [pollDueSelect_cons_notdue _ _ _ _ _ _ hl hd]
          exact ih _ hndr ep hmem

/-- With unique endpoint names, a due endpoint's `lastPolledAt` entry
is stamped with the tick's `now` and a not-due endpoint's entry is
untouched. -/
theorem pollDueSelect_stamp (endpoints : List EndpointInfo) (interval : Nat)
    (m : List (String × Int)) (now : Int)
    (hnd : (endpoints.map EndpointInfo.Name).Nodup) :
    ∀ ep ∈ endpoints,
      (ep ∈ (pollDueSelect endpoints interval m now false).1 →
        lookupTime (pollDueSelect endpoints interval m now false).2 ep.Name = some now)
      ∧ (ep ∉ (pollDueSelect endpoints interval m now false).1 →
        lookupTime (pollDueSelect endpoints interval m now false).2 ep.Name
          = lookupTime m ep.Name) := by
  induction endpoints generalizing m with
  | nil => simp
  | cons ep0 rest ih =>
    have hnd0 : ep0.Name ∉ rest.map EndpointInfo.Name := by
      simpa using (List.nodup_cons.mp hnd).1
    have hndr : (rest.map EndpointInfo.Name).Nodup := (List.nodup_cons.mp hnd).2
    have hep0_notin_rest : ep0 ∉ rest := by
      intro h; exact hnd0 (List.mem_map_of_mem _ h)
    intro ep hep
    rcases List.mem_cons.mp hep with h | hmem
    · subst h
      rcases hl : lookupTime m ep.Name with _ | t
      · rw [pollDueSelect_cons_none _ _ _ _ _ hl]
        refine ⟨fun _ => ?_, fun hno => absurd (List.mem_cons_self _ _) hno⟩
        rw [pollDueSelect_lookup_notmem rest interval _ now false ep.Name hnd0,
          lookupTime_setTime_self]
      · by_cases hd : ((if ep.Interval = 0 then interval else ep.Interval : Nat) : Int) ≤ now - t
        · rw [pollDueSelect_cons_due _ _ _ _ _ _ hl hd]
          refine ⟨fun _ => ?_, fun hno => absurd (List.mem_cons_self _ _) hno⟩
          rw [pollDueSelect_lookup_notmem rest interval _ now false ep.Name hnd0,
            lookupTime_setTime_self]
        · rw [pollDueSelect_cons_notdue _ _ _ _ _ _ hl hd]
          refine ⟨fun hmem' => ?_, fun _ => ?_⟩
          · exact absurd (pollDueSelect_subset rest interval m now false ep hmem')
              hep0_notin_rest
          · rw [pollDueSelect_lookup_notmem rest interval m now false ep.Name hnd0]
            exact hl
    · have hname : ep.Name ≠ ep0.Name := by
        intro h
        exact hnd0 (h ▸ List.mem_map_of_mem _ hmem)
      have hne : ep ≠ ep0 := by
        intro h; exact hname (by rw [h])
      have hcong : ∀ m'', lookupTime (setTime m'' ep0.Name now) ep.Name = lookupTime m'' ep.Name :=
        fun m'' => lookupTime_setTime_other _ _ _ _ hname
      rcases hl : lookupTime m ep0.Name with _ | t
      · rw [pollDueSelect_cons_none _ _ _ _ _ hl]
        refine ⟨fun hd' => ?_, fun hnd' => ?_⟩
        · rcases List.mem_cons.mp hd' with h | h
          · exact absurd h hne
          · exact (ih _ hndr ep hmem).1 h
        · have : ep ∉ (pollDueSelect rest interval (setTime m ep0.Name now) now false).1 := by
            intro h; exact hnd' (List.mem_cons_of_mem _ h)
          rw [(ih _ hndr ep hmem).2 this, hcong m]
      · by_cases hd : ((if ep0.Interval = 0 then interval else ep0.Interval : Nat) : Int) ≤ now - t
        · rw [pollDueSelect_cons_due _ _ _ _ _ _ hl hd]
          refine ⟨fun hd' => ?_, fun hnd' => ?_⟩
          · rcases List.mem_cons.mp hd' with h | h
            · exact absurd h hne
            · exact (ih _ hndr ep hmem).1 h
          · have : ep ∉ (pollDueSelect rest interval (setTime m ep0.Name now) now false).1 := by
              intro h; exact hnd' (List.mem_cons_of_mem _ h)
            rw [(ih _ hndr ep hmem).2 this, hcong m]
        · rw [pollDueSelect_cons_notdue _ _ _ _ _ _ hl hd]
          exact ih _ hndr ep hmem

theorem foldl_gcdDuration_eq_foldl_gcd (init : Nat) (l : List Nat) :
    l.foldl gcdDuration init = l.foldl Nat.gcd init := by
  induction l generalizing init with
  | nil => rfl
  | cons x xs ih => simp [List.foldl_cons, gcdDuration_eq_gcd, ih]

theorem foldl_gcd_eq_gcd_foldr (init : Nat) (l : List Nat) :
    l.foldl Nat.gcd init = Nat.gcd init (l.foldr Nat.gcd 0) := by
  induction l generalizing init with
  | nil => simp
  | cons x xs ih =>
    simp only [List.foldl_cons, List.foldr_cons, ih, Nat.gcd_assoc]

/-- **C3.** Scheduler tick selection: for a non-empty endpoint list the
base tick period is the GCD of all effective intervals (per-endpoint
when set, else the global default) floored at one second; on the first
scheduling pass every endpoint is due unconditionally and stamped; on
later ticks (with the unique endpoint names `New` guarantees) an
endpoint is due iff it was never polled or the elapsed time since its
last recorded poll start meets or exceeds its effective interval; and
the `lastPolledAt` map is written at dispatch with the tick's `now` —
independently of every probe outcome, i.e. at poll start, not at
completion. -/
theorem scheduler_tick_selection (endpoints : List EndpointInfo) (interval : Nat)
    (lastPolledAt : List (String × Int)) (now : Int)
    (hne : endpoints ≠ []) :
    (calculateBaseInterval endpoints interval
        = max second ((endpoints.map (effectiveInterval interval)).foldr Nat.gcd 0))
    ∧ ((pollDueSelect endpoints interval lastPolledAt now true).1 = endpoints)
    ∧ (∀ ep ∈ endpoints,
        lookupTime (pollDueSelect endpoints interval lastPolledAt now true).2 ep.Name
          = some now)
    ∧ ((endpoints.map EndpointInfo.Name).Nodup →
        ∀ ep ∈ endpoints,
          (ep ∈ (pollDueSelect endpoints interval lastPolledAt now false).1 ↔
            dueSpec ep interval lastPolledAt now))
    ∧ ((endpoints.map EndpointInfo.Name).Nodup →
        ∀ ep ∈ endpoints,
          (ep ∈ (pollDueSelect endpoints interval lastPolledAt now false).1 →
            lookupTime (pollDueSelect endpoints interval lastPolledAt now false).2 ep.Name
              = some now)
          ∧ (ep ∉ (pollDueSelect endpoints interval lastPolledAt now false).1 →
            lookupTime (pollDueSelect endpoints interval lastPolledAt now false).2 ep.Name
              = lookupTime lastPolledAt ep.Name))
    ∧ (∀ (immediate : Bool) (respOf respOf' : EndpointInfo → Response)
          (cidOf cidOf' : EndpointInfo → String),
        (schedulerTick endpoints interval lastPolledAt now immediate respOf cidOf).2
          = (schedulerTick endpoints interval lastPolledAt now immediate respOf' cidOf').2) := by
  refine ⟨?_, ?_, ?_, ?_, ?_, ?_⟩
  · obtain ⟨ep0, rest, rfl⟩ := List.exists_cons_of_ne_nil hne
    show (if (rest.map (effectiveInterval interval)).foldl gcdDuration
        (effectiveInterval interval ep0) < second then second
      else (rest.map (effectiveInterval interval)).foldl gcdDuration
        (effectiveInterval interval ep0)) = _
    rw [foldl_gcdDuration_eq_foldl_gcd, foldl_gcd_eq_gcd_foldr]
    have : ((ep0 :: rest).map (effectiveInterval interval)).foldr Nat.gcd 0
        = Nat.gcd (effectiveInterval interval ep0)
            ((rest.map (effectiveInterval interval)).foldr Nat.gcd 0) := by
      simp
    rw [this, Nat.max_def]
    split <;> split <;> omega
  · exact pollDueSelect_imm_due endpoints interval lastPolledAt now
  · exact pollDueSelect_imm_stamp endpoints interval lastPolledAt now
  · intro hnd
    exact pollDueSelect_due_iff endpoints interval lastPolledAt now hnd
  · intro hnd
    exact pollDueSelect_stamp endpoints interval lastPolledAt now hnd
  · intro immediate respOf respOf' cidOf cidOf'
    rfl

/-- A concrete endpoint with a 2-second custom interval. -/
def epA : EndpointInfo :=
  { Name := "A", URL := "http://a", Labels := none, Headers := none
    Timeout := second, Extractor := none, Method := "", Interval := 2 * second }

/-- A concrete endpoint using the global default interval. -/
def epB : EndpointInfo :=
  { Name := "B", URL := "http://b", Labels := none, Headers := none
    Timeout := second, Extractor := none, Method := "", Interval := 0 }

/-- Witness for C3 at concrete inputs: two endpoints (intervals 2 s and
global-default 6 s), an empty timing map for the first pass, and a map
where `A` was polled at time 0 observed at `now = 3 s`. -/
theorem scheduler_tick_selection_witness :
    (calculateBaseInterval [epA, epB] (6 * second)
        = max second (([epA, epB].map (effectiveInterval (6 * second))).foldr Nat.gcd 0))
    ∧ ((pollDueSelect [epA, epB] (6 * second) [] 0 true).1 = [epA, epB])
    ∧ (lookupTime (pollDueSelect [epA, epB] (6 * second) [] 0 true).2 epA.Name = some 0)
    ∧ (epA ∈ (pollDueSelect [epA, epB] (6 * second) [("A", 0)] (3 * second) false).1 ↔
        dueSpec epA (6 * second) [("A", 0)] (3 * second))
    ∧ (epA ∈ (pollDueSelect [epA, epB] (6 * second) [("A", 0)] (3 * second) false).1 →
        lookupTime (pollDueSelect [epA, epB] (6 * second) [("A", 0)] (3 * second) false).2
          epA.Name = some (3 * second)) := by
  have hne : ([epA, epB] : List EndpointInfo) ≠ [] := by simp
  have hnd : (([epA, epB].map EndpointInfo.Name)).Nodup := by
    simp [epA, epB]
  refine ⟨?_, ?_, ?_, ?_, ?_⟩
  · exact (scheduler_tick_selection [epA, epB] (6 * second) [] 0 hne).1
  · exact (scheduler_tick_selection [epA, epB] (6 * second) [] 0 hne).2.1
  · exact (scheduler_tick_selection [epA, epB] (6 * second) [] 0 hne).2.2.1 epA (by simp)
  · exact (scheduler_tick_selection [epA, epB] (6 * second) [("A", 0)] (3 * second) hne).2.2.2.1
      hnd epA (by simp)
  · exact fun hmem =>
      ((scheduler_tick_selection [epA, epB] (6 * second) [("A", 0)] (3 * second) hne).2.2.2.2.1
        hnd epA (by simp)).1 hmem

/-- `StatusResult` (store/store.go): the storage representation of an
endpoint's status.  `Labels` is a reference into the label heap (Go
maps are references); `Error` is the optional error message string
(`*string`). -/
structure StoreStatusResult where
  Name : String
  URL : String
  Status : String
  Labels : Option Nat
  ResponseTimeMs : Int
  CheckedAt : Int
  Error : Option String
deriving DecidableEq, Repr

/-- `MemoryStore` (store/memory.go): status map keyed by endpoint name,
subscriber set, and channel bookkeeping.  A subscriber channel is a
fresh identifier paired with its buffered queue contents; `closed`
records channels that have been closed (closing one twice panics in
Go), and `nextCh` generates fresh channel identities. -/
structure MemoryStore where
  statuses : List (String × StoreStatusResult)
  subscribers : List (Nat × List StoreStatusResult)
  closed : List Nat
  nextCh : Nat
deriving DecidableEq, Repr

/-- `NewMemoryStore` (store/memory.go). -/
def NewMemoryStore : MemoryStore := ⟨[], [], [], 0⟩

/-- Go map store `m.statuses[result.Name] = result`: replace the entry
for the key, or add one. -/
def setStatus : List (String × StoreStatusResult) → String → StoreStatusResult →
    List (String × StoreStatusResult)
  | [], name, r => [(name, r)]
  | (k, v) :: rest, name, r =>
    if k = name then (name, r) :: rest else (k, v) :: setStatus rest name r

/-- Association lookup on the status map. -/
def lookupStatus : List (String × StoreStatusResult) → String → Option StoreStatusResult
  | [], _ => none
  | (k, v) :: rest, name => if k = name then some v else lookupStatus rest name

/-- The capacity of a subscriber's buffered channel
(`make(chan StatusResult, 100)` in `Subscribe`). -/
def subscriberCap : Nat := 100

/-- The non-blocking send of `notifySubscribers`
(`select { case ch <- result: default: }`): enqueue when the buffer has
free space, silently drop otherwise. -/
def trySend (q : List StoreStatusResult) (r : StoreStatusResult) : List StoreStatusResult :=
  if q.length < subscriberCap then q ++ [r] else q

/-- `notifySubscribers` (store/memory.go): best-effort enqueue of the
result to every active subscriber. -/
def notifySubscribers (m : MemoryStore) (r : StoreStatusResult) : MemoryStore :=
  { m with subscribers := m.subscribers.map (fun s => (s.1, trySend s.2 r)) }

/-- `Update` (store/memory.go): store the result keyed by its `Name`
(replacing any previous entry), then notify all subscribers. -/
def MemoryStore.Update (m : MemoryStore) (r : StoreStatusResult) : MemoryStore :=
  notifySubscribers { m with statuses := setStatus m.statuses r.Name r } r

/-- `GetAll` (store/memory.go): the values of the status map, appended
into a fresh slice. -/
def MemoryStore.GetAll (m : MemoryStore) : List StoreStatusResult :=
  m.statuses.map Prod.snd

/-- `Subscribe` (store/memory.go): create a fresh channel with an empty
buffer and add it to the subscriber set, returning its handle. -/
def MemoryStore.Subscribe (m : MemoryStore) : MemoryStore × Nat :=
  ({ m with subscribers := m.subscribers ++ [(m.nextCh, [])], nextCh := m.nextCh + 1 },
    m.nextCh)

/-- `close(ch)`: closing an already-closed channel panics (`none`). -/
def closeChan (m : MemoryStore) (ch : Nat) : Option MemoryStore :=
  if ch ∈ m.closed then none else some { m with closed := ch :: m.closed }

/-- The find-delete-break loop of `Unsubscribe`: remove the first
subscriber entry for `ch`, reporting whether one was found. -/
def unsubscribeLoop (subs : List (Nat × List StoreStatusResult)) (ch : Nat) :
    List (Nat × List StoreStatusResult) × Bool :=
  match subs with
  | [] => ([], false)
  | (c, q) :: rest =>
    if c = ch then (rest, true)
    else
      let r := unsubscribeLoop rest ch
      ((c, q) :: r.1, r.2)

/-- `Unsubscribe` (store/memory.go): delete the channel from the
subscriber set and close it; unknown channels are left alone.  `none`
models a panic (which the Go code must never reach). -/
def MemoryStore.Unsubscribe (m : MemoryStore) (ch : Nat) : Option MemoryStore :=
  let r := unsubscribeLoop m.subscribers ch
  if r.2 then closeChan { m with subscribers := r.1 } ch
  else some { m with subscribers := r.1 }

/-- Well-formedness of the status map: the keys are unique (it models a
Go map) and every entry is stored under its own `Name` (as `Update`
does). -/
def WFStatuses (l : List (String × StoreStatusResult)) : Prop :=
  (l.map Prod.fst).Nodup ∧ ∀ p ∈ l, p.2.Name = p.1

theorem lookupStatus_setStatus_self (l : List (String × StoreStatusResult))
    (k : String) (r : StoreStatusResult) :
    lookupStatus (setStatus l k r) k = some r := by
  induction l with
  | nil => simp [setStatus, lookupStatus]
  | cons p rest ih =>
    obtain ⟨k', v⟩ := p
    by_cases h : k' = k <;> simp [setStatus, lookupStatus, h, ih]

theorem setStatus_keys (l : List (String × StoreStatusResult)) (k : String)
    (r : StoreStatusResult) :
    (setStatus l k r).map Prod.fst =
      if k ∈ l.map Prod.fst then l.map Prod.fst else l.map Prod.fst ++ [k] := by
  induction l with
  | nil => simp [setStatus]
  | cons p rest ih =>
    obtain ⟨k0, v0⟩ := p
    by_cases h : k0 = k
    · subst h
      simp [setStatus]
    · simp only [setStatus, if_neg h, List.map_cons, ih]
      by_cases hmem : k ∈ rest.map Prod.fst
      · simp [hmem, Ne.symm h]
      · simp [hmem, Ne.symm h]

theorem setStatus_values (l : List (String × StoreStatusResult)) (k : String)
    (r : StoreStatusResult) (hr : r.Name = k) (hl : ∀ p ∈ l, p.2.Name = p.1) :
    ∀ p ∈ setStatus l k r, p.2.Name = p.1 := by
  induction l with
  | nil =>
    intro p hp
    simp only [setStatus, List.mem_singleton] at hp
    subst hp; exact hr
  | cons q rest ih =>
    obtain ⟨k0, v0⟩ := q
    intro p hp
    by_cases h : k0 = k
    · rw [show setStatus ((k0, v0) :: rest) k r = (k, r) :: rest from by
        simp [setStatus, h]] at hp
      rcases List.mem_cons.mp hp with hp1 | hp1
      · subst hp1; exact hr
      · exact hl p (List.mem_cons_of_mem _ hp1)
    · rw [show setStatus ((k0, v0) :: rest) k r = (k0, v0) :: setStatus rest k r from by
        simp [setStatus, h]] at hp
      rcases List.mem_cons.mp hp with hp1 | hp1
      · subst hp1; exact hl _ (List.mem_cons_self _ _)
      · exact ih (fun q hq => hl q (List.mem_cons_of_mem _ hq)) p hp1

theorem WFStatuses_setStatus (l : List (String × StoreStatusResult)) (k : String)
    (r : StoreStatusResult) (hr : r.Name = k) (hwf : WFStatuses l) :
    WFStatuses (setStatus l k r) := by
  refine ⟨?_, setStatus_values l k r hr hwf.2⟩
  rw [setStatus_keys]
  by_cases hmem : k ∈ l.map Prod.fst
  · simp [hmem, hwf.1]
  · simp [hmem, List.Nodup.append hwf.1 (List.nodup_singleton k)
      (by simpa [List.disjoint_singleton] using hmem)]

/-- A name absent from the key set matches no stored value. -/
theorem filter_name_nil (l : List (String × StoreStatusResult)) (n : String)
    (hn : n ∉ l.map Prod.fst) (hl : ∀ p ∈ l, p.2.Name = p.1) :
    (l.map Prod.snd).filter (fun x => x.Name == n) = [] := by
  induction l with
  | nil => rfl
  | cons p rest ih =>
    obtain ⟨k, v⟩ := p
    have hkn : k ≠ n := fun h => hn (by simp [h])
    have hvn : v.Name ≠ n := by
      have : v.Name = k := hl ⟨k, v⟩ (List.mem_cons_self _ _)
      rw [this]; exact hkn
    simp only [List.map_cons, List.filter_cons]
    rw [if_neg (by simpa using hvn)]
    exact ih (fun h => hn (List.mem_cons_of_mem _ h))
      (fun q hq => hl q (List.mem_cons_of_mem _ hq))

/-- Under well-formedness, filtering the stored values by a name yields
exactly the map's entry for that name. -/
theorem filter_name_eq_lookup (l : List (String × StoreStatusResult)) (n : String)
    (hwf : WFStatuses l) :
    (l.map Prod.snd).filter (fun x => x.Name == n) = (lookupStatus l n).toList := by
  induction l with
  | nil => rfl
  | cons p rest ih =>
    obtain ⟨k, v⟩ := p
    have hkeys : k ∉ rest.map Prod.fst := by simpa using (List.nodup_cons.mp hwf.1).1
    have hrest : WFStatuses rest :=
      ⟨(List.nodup_cons.mp hwf.1).2, fun q hq => hwf.2 q (List.mem_cons_of_mem _ hq)⟩
    have hv : v.Name = k := hwf.2 ⟨k, v⟩ (List.mem_cons_self _ _)
    by_cases h : k = n
    · subst h
      simp only [List.map_cons, List.filter_cons, lookupStatus, if_pos rfl]
      rw [if_pos (by simpa using hv)]
      rw [filter_name_nil rest k hkeys hrest.2]
      simp
    · simp only [List.map_cons, List.filter_cons, lookupStatus, if_neg h]
      rw [if_neg (by simp [hv, h])]
      exact ih hrest

/-- The heap of slices handed out by `GetAll`; a reference is an index. -/
structure SliceHeap where
  slices : List (List StoreStatusResult)
deriving Repr

def SliceHeap.alloc (h : SliceHeap) (s : List StoreStatusResult) : SliceHeap × Nat :=
  (⟨h.slices ++ [s]⟩, h.slices.length)

def SliceHeap.read (h : SliceHeap) (r : Nat) : List StoreStatusResult :=
  h.slices.getD r []

theorem getD_append_length {α : Type _} (l : List α) (x : α) (d : α) :
    (l ++ [x]).getD l.length d = x := by
  induction l with
  | nil => rfl
  | cons a rest ih =>
    simp only [List.cons_append, List.length_cons, List.getD_cons_succ]
    exact ih

/-- `GetAll` allocates a fresh slice holding the current entries
(`results := make(...); for … append`) and returns its reference. -/
def GetAllInto (h : SliceHeap) (m : MemoryStore) : SliceHeap × Nat :=
  h.alloc m.GetAll

/-- An `Update` in the world of store plus handed-out slices: it writes
the store's map and subscriber queues and touches no returned slice. -/
def WorldUpdate (w : SliceHeap × MemoryStore) (r : StoreStatusResult) :
    SliceHeap × MemoryStore :=
  (w.1, w.2.Update r)

theorem foldl_WorldUpdate_heap (updates : List StoreStatusResult)
    (h : SliceHeap) (m : MemoryStore) :
    (updates.foldl WorldUpdate (h, m)).1 = h := by
  induction updates generalizing m with
  | nil => rfl
  | cons r rest ih => simpa [WorldUpdate] using ih (m.Update r)

theorem Update_statuses (m : MemoryStore) (r : StoreStatusResult) :
    (m.Update r).statuses = setStatus m.statuses r.Name r := rfl

/-- **C4.** Store replacement invariant and snapshot independence: an
`Update` keeps at most one entry per endpoint name; updating the same
name twice leaves exactly one entry holding the second value; and the
slice returned by `GetAll` is a point-in-time copy that no subsequent
`Update` changes. -/
theorem store_replacement_and_snapshot (m : MemoryStore) (hwf : WFStatuses m.statuses)
    (r r1 r2 : StoreStatusResult) (h12 : r1.Name = r2.Name) (h : SliceHeap) :
    WFStatuses (m.Update r).statuses
    ∧ (∀ n, (((m.Update r).GetAll).filter (fun x => x.Name == n)).length ≤ 1)
    ∧ ((((m.Update r1).Update r2).GetAll).filter (fun x => x.Name == r2.Name)) = [r2]
    ∧ (∀ updates : List StoreStatusResult,
        ((updates.foldl WorldUpdate ((GetAllInto h m).1, m)).1).read (GetAllInto h m).2
          = m.GetAll) := by
  have hwf1 : ∀ r' : StoreStatusResult, WFStatuses (m.Update r').statuses := by
    intro r'
    rw [Update_statuses]
    exact WFStatuses_setStatus m.statuses r'.Name r' rfl hwf
  refine ⟨hwf1 r, ?_, ?_, ?_⟩
  · intro n
    rw [MemoryStore.GetAll, filter_name_eq_lookup _ n (hwf1 r)]
    cases lookupStatus (m.Update r).statuses n <;> simp
  · have hwf2 : WFStatuses ((m.Update r1).Update r2).statuses := by
      rw [Update_statuses]
      exact WFStatuses_setStatus _ r2.Name r2 rfl (hwf1 r1)
    rw [MemoryStore.GetAll, filter_name_eq_lookup _ r2.Name hwf2]
    rw [Update_statuses, lookupStatus_setStatus_self]
    rfl
  · intro updates
    rw [foldl_WorldUpdate_heap]
    show (SliceHeap.alloc h m.GetAll).1.read (SliceHeap.alloc h m.GetAll).2 = m.GetAll
    simp only [SliceHeap.alloc, SliceHeap.read]
    exact getD_append_length _ _ _

/-- A concrete stored result for endpoint `"api"`. -/
def srv1 : StoreStatusResult :=
  { Name := "api", URL := "http://x", Status := "down", Labels := none
    ResponseTimeMs := 12, CheckedAt := 1, Error := some "timeout" }

/-- A second concrete result for the same endpoint name. -/
def srv2 : StoreStatusResult :=
  { Name := "api", URL := "http://x", Status := "up", Labels := none
    ResponseTimeMs := 8, CheckedAt := 2, Error := none }

/-- Witness for C4 at concrete inputs: from the empty store, updating
`"api"` twice leaves exactly `[srv2]` under that name, and the snapshot
taken before further updates is unchanged by them. -/
theorem store_replacement_and_snapshot_witness :
    ((((NewMemoryStore.Update srv1).Update srv2).GetAll).filter
        (fun x => x.Name == srv2.Name)) = [srv2]
    ∧ (([srv1, srv2].foldl WorldUpdate
          ((GetAllInto ⟨[]⟩ NewMemoryStore).1, NewMemoryStore)).1).read
        (GetAllInto ⟨[]⟩ NewMemoryStore).2 = NewMemoryStore.GetAll := by
  have hwf : WFStatuses NewMemoryStore.statuses := ⟨by simp [NewMemoryStore], by simp [NewMemoryStore]⟩
  refine ⟨?_, ?_⟩
  · exact (store_replacement_and_snapshot NewMemoryStore hwf srv1 srv1 srv2 rfl ⟨[]⟩).2.2.1
  · exact (store_replacement_and_snapshot NewMemoryStore hwf srv1 srv1 srv2 rfl ⟨[]⟩).2.2.2
      [srv1, srv2]

theorem Update_subscribers (m : MemoryStore) (r : StoreStatusResult) :
    (m.Update r).subscribers = m.subscribers.map (fun s => (s.1, trySend s.2 r)) := rfl

/-- **C5.** Drop-on-full backpressure: `Subscribe` creates a private
queue (empty, capacity `subscriberCap = 100`); on every `Update` a
subscriber with free buffer space receives the result enqueued while a
full subscriber has it silently dropped; and the delivery to each
subscriber position depends only on that subscriber's own queue, so one
subscriber's fullness never affects another's delivery and the update
path is a total function (never blocks). -/
theorem store_backpressure (m : MemoryStore) (r : StoreStatusResult) :
    subscriberCap = 100
    ∧ ((m.Subscribe).1.subscribers = m.subscribers ++ [((m.Subscribe).2, [])])
    ∧ (∀ ch q, (ch, q) ∈ m.subscribers →
        (q.length < 100 → (ch, q ++ [r]) ∈ (m.Update r).subscribers)
        ∧ (¬q.length < 100 → (ch, q) ∈ (m.Update r).subscribers))
    ∧ ((m.Update r).subscribers.length = m.subscribers.length)
    ∧ (∀ i : Nat, (m.Update r).subscribers.get? i =
        (m.subscribers.get? i).map (fun s => (s.1, trySend s.2 r))) := by
  refine ⟨rfl, rfl, ?_, ?_, ?_⟩
  · intro ch q hmem
    constructor
    · intro hfree
      rw [Update_subscribers]
      have := List.mem_map_of_mem (fun s => (s.1, trySend s.2 r)) hmem
      simpa [trySend, subscriberCap, hfree] using this
    · intro hfull
      rw [Update_subscribers]
      have := List.mem_map_of_mem (fun s => (s.1, trySend s.2 r)) hmem
      simpa [trySend, subscriberCap, hfull] using this
  · rw [Update_subscribers, List.length_map]
  · intro i
    rw [Update_subscribers, List.get?_map]

/-- A concrete store with a saturated subscriber (channel 7) and an
empty subscriber (channel 8). -/
def mTwoSubs : MemoryStore :=
  ⟨[], [(7, List.replicate 100 srv1), (8, [])], [], 9⟩

/-- Witness for C5 at concrete inputs: updating the store delivers to
the empty subscriber and silently drops for the full one, leaving the
full queue unchanged. -/
theorem store_backpressure_witness :
    subscriberCap = 100
    ∧ (8, [srv2]) ∈ (mTwoSubs.Update srv2).subscribers
    ∧ (7, List.replicate 100 srv1) ∈ (mTwoSubs.Update srv2).subscribers := by
  have h := store_backpressure mTwoSubs srv2
  refine ⟨h.1, ?_, ?_⟩
  · have := (h.2.2.1 8 [] (by simp [mTwoSubs])).1 (by simp)
    simpa using this
  · exact (h.2.2.1 7 (List.replicate 100 srv1) (by simp [mTwoSubs])).2 (by simp)

/-- Well-formedness of the subscriber bookkeeping: channel identities
are unique (they are distinct Go channel values) and no closed channel
is still in the subscriber set. -/
def WFSubs (m : MemoryStore) : Prop :=
  (m.subscribers.map Prod.fst).Nodup
    ∧ ∀ c ∈ m.closed, c ∉ m.subscribers.map Prod.fst

/-- Association lookup on the subscriber set. -/
def lookupSub : List (Nat × List StoreStatusResult) → Nat → Option (List StoreStatusResult)
  | [], _ => none
  | (c, q) :: rest, ch => if c = ch then some q else lookupSub rest ch

theorem lookupSub_eq_none (l : List (Nat × List StoreStatusResult)) (ch : Nat)
    (h : ch ∉ l.map Prod.fst) : lookupSub l ch = none := by
  induction l with
  | nil => rfl
  | cons p rest ih =>
    obtain ⟨c, q⟩ := p
    have hc : c ≠ ch := fun hc => h (by simp [hc])
    simp only [lookupSub, if_neg hc]
    exact ih (fun hm => h (List.mem_cons_of_mem _ hm))

theorem unsubscribeLoop_not_found (subs : List (Nat × List StoreStatusResult)) (ch : Nat)
    (h : ch ∉ subs.map Prod.fst) : unsubscribeLoop subs ch = (subs, false) := by
  induction subs with
  | nil => rfl
  | cons p rest ih =>
    obtain ⟨c, q⟩ := p
    have hc : c ≠ ch := fun hc => h (by simp [hc])
    simp only [unsubscribeLoop, if_neg hc]
    rw [ih (fun hm => h (List.mem_cons_of_mem _ hm))]

theorem unsubscribeLoop_found_iff (subs : List (Nat × List StoreStatusResult)) (ch : Nat) :
    (unsubscribeLoop subs ch).2 = true ↔ ch ∈ subs.map Prod.fst := by
  induction subs with
  | nil => simp [unsubscribeLoop]
  | cons p rest ih =>
    obtain ⟨c, q⟩ := p
    by_cases hc : c = ch
    · simp [unsubscribeLoop, hc]
    · rw [show unsubscribeLoop ((c, q) :: rest) ch
          = ((c, q) :: (unsubscribeLoop rest ch).1, (unsubscribeLoop rest ch).2) from by
        simp [unsubscribeLoop, hc]]
      simp only [List.map_cons, List.mem_cons]
      rw [show ((c, q) :: (unsubscribeLoop rest ch).1, (unsubscribeLoop rest ch).2).2
          = (unsubscribeLoop rest ch).2 from rfl, ih]
      constructor
      · exact fun h => Or.inr h
      · rintro (h | h)
        · exact absurd h.symm hc
        · exact h

theorem unsubscribeLoop_removes (subs : List (Nat × List StoreStatusResult)) (ch : Nat)
    (hnd : (subs.map Prod.fst).Nodup) :
    ch ∉ (unsubscribeLoop subs ch).1.map Prod.fst := by
  induction subs with
  | nil => simp [unsubscribeLoop]
  | cons p rest ih =>
    obtain ⟨c, q⟩ := p
    have hkeys : c ∉ rest.map Prod.fst := by simpa using (List.nodup_cons.mp hnd).1
    have hndr : (rest.map Prod.fst).Nodup := (List.nodup_cons.mp hnd).2
    by_cases hc : c = ch
    · subst hc
      simpa [unsubscribeLoop] using hkeys
    · simp only [unsubscribeLoop, if_neg hc, List.map_cons, List.mem_cons]
      push_neg
      exact ⟨fun h => hc h.symm, ih hndr⟩

theorem unsubscribeLoop_keys_subset (subs : List (Nat × List StoreStatusResult)) (ch : Nat) :
    ∀ c ∈ (unsubscribeLoop subs ch).1.map Prod.fst, c ∈ subs.map Prod.fst := by
  induction subs with
  | nil => simp [unsubscribeLoop]
  | cons p rest ih =>
    obtain ⟨c0, q⟩ := p
    by_cases hc : c0 = ch
    · intro c hc'
      simp only [unsubscribeLoop, if_pos hc] at hc'
      exact List.mem_cons_of_mem _ hc'
    · intro c hc'
      simp only [unsubscribeLoop, if_neg hc, List.map_cons, List.mem_cons] at hc'
      rcases hc' with h | h
      · simp [h]
      · exact List.mem_cons_of_mem _ (ih c h)

theorem Update_sub_keys (m : MemoryStore) (r : StoreStatusResult) :
    (m.Update r).subscribers.map Prod.fst = m.subscribers.map Prod.fst := by
  rw [Update_subscribers, List.map_map]
  rfl

theorem foldl_Update_sub_keys (updates : List StoreStatusResult) (m : MemoryStore) :
    (updates.foldl MemoryStore.Update m).subscribers.map Prod.fst
      = m.subscribers.map Prod.fst := by
  induction updates generalizing m with
  | nil => rfl
  | cons r rest ih =>
    simp only [List.foldl_cons]
    rw [ih, Update_sub_keys]

/-- **C7.** Subscription teardown: `Unsubscribe` never errors or panics
(under the store's channel bookkeeping invariant); after it returns, no
sequence of subsequent `Update`s ever delivers to the handle (the
subscriber set holds no queue for it); unsubscribing the same handle a
second time is a no-op returning the same store; and unsubscribing a
handle the store does not know leaves the subscriber set unchanged. -/
theorem unsubscribe_teardown (m : MemoryStore) (ch : Nat) (hwf : WFSubs m) :
    ∃ m', m.Unsubscribe ch = some m'
      ∧ (∀ updates : List StoreStatusResult,
          lookupSub (updates.foldl MemoryStore.Update m').subscribers ch = none)
      ∧ m'.Unsubscribe ch = some m'
      ∧ (ch ∉ m.subscribers.map Prod.fst → m'.subscribers = m.subscribers) := by
  by_cases hmem : ch ∈ m.subscribers.map Prod.fst
  · -- the handle is present: it is removed and its channel closed
    have hfound : (unsubscribeLoop m.subscribers ch).2 = true :=
      (unsubscribeLoop_found_iff m.subscribers ch).mpr hmem
    have hclosed : ch ∉ m.closed := fun hc => (hwf.2 ch hc) hmem
    refine ⟨⟨m.statuses, (unsubscribeLoop m.subscribers ch).1, ch :: m.closed, m.nextCh⟩,
      ?_, ?_, ?_, ?_⟩
    · show (if (unsubscribeLoop m.subscribers ch).2 then _ else _) = _
      rw [if_pos hfound]
      show closeChan _ ch = _
      rw [closeChan, if_neg hclosed]
    · intro updates
      apply lookupSub_eq_none
      rw [foldl_Update_sub_keys]
      exact unsubscribeLoop_removes m.subscribers ch hwf.1
    · have hgone : ch ∉ (unsubscribeLoop m.subscribers ch).1.map Prod.fst :=
        unsubscribeLoop_removes m.subscribers ch hwf.1
      show (if (unsubscribeLoop (unsubscribeLoop m.subscribers ch).1 ch).2 then _ else _) = _
      rw [unsubscribeLoop_not_found _ _ hgone]
      rfl
    · intro habs
      exact absurd hmem habs
  · -- unknown handle: nothing is removed and nothing is closed
    have hloop : unsubscribeLoop m.subscribers ch = (m.subscribers, false) :=
      unsubscribeLoop_not_found m.subscribers ch hmem
    refine ⟨m, ?_, ?_, ?_, fun _ => rfl⟩
    · show (if (unsubscribeLoop m.subscribers ch).2 then _ else _) = _
      rw [hloop]
      rfl
    · intro updates
      apply lookupSub_eq_none
      rw [foldl_Update_sub_keys]
      exact hmem
    · show (if (unsubscribeLoop m.subscribers ch).2 then _ else _) = _
      rw [hloop]
      rfl

/-- A concrete store with a single live subscriber (channel 3). -/
def mOneSub : MemoryStore := ⟨[], [(3, [])], [], 4⟩

/-- Witness for C7 at concrete inputs: unsubscribing channel 3 from
`mOneSub` succeeds, updates after teardown never deliver to it, a
second unsubscribe is a no-op, and unsubscribing unknown channel 99
leaves the subscriber set unchanged. -/
theorem unsubscribe_teardown_witness :
    (mOneSub.Unsubscribe 3).isSome = true
    ∧ lookupSub (([srv1].foldl MemoryStore.Update
        ((mOneSub.Unsubscribe 3).getD mOneSub)).subscribers) 3 = none
    ∧ ((mOneSub.Unsubscribe 3).getD mOneSub).Unsubscribe 3 = mOneSub.Unsubscribe 3
    ∧ ((mOneSub.Unsubscribe 99).getD mOneSub).subscribers = mOneSub.subscribers := by
  have hwf : WFSubs mOneSub := ⟨by simp [mOneSub], by simp [mOneSub]⟩
  obtain ⟨m', h1, h2, h3, _⟩ := unsubscribe_teardown mOneSub 3 hwf
  obtain ⟨m'', h1', _, _, h4'⟩ := unsubscribe_teardown mOneSub 99 hwf
  refine ⟨by rw [h1]; rfl, ?_, ?_, ?_⟩
  · rw [h1]
    exact h2 [srv1]
  · rw [h1]
    show m'.Unsubscribe 3 = some m'
    exact h3
  · rw [h1']
    show m''.subscribers = mOneSub.subscribers
    exact h4' (by simp [mOneSub])

/-- The scheduler's lifecycle state (scheduler.go): the `started` and
`stopped` flags guarded by `s.mu`, whether `s.cancel` is non-nil,
whether the scheduler's context has been cancelled, whether the control
loop goroutine is still running, the `sync.Once` flag of `closeOnce`,
and whether `close(s.results)` has happened. -/
structure SchedulerState where
  started : Bool
  stopped : Bool
  hasCancel : Bool
  ctxCancelled : Bool
  loopRunning : Bool
  onceDone : Bool
  resultsClosed : Bool
deriving DecidableEq, Repr

/-- The state of a scheduler fresh out of `NewScheduler`. -/
def newSchedulerState : SchedulerState :=
  ⟨false, false, false, false, false, false, false⟩

/-- `close(s.results)`: closing an already-closed channel panics
(`none`). -/
def closeResultsChan (s : SchedulerState) : Option SchedulerState :=
  if s.resultsClosed then none else some { s with resultsClosed := true }

/-- `s.closeOnce.Do(func() { close(s.results) })`: runs the close at
most once across all callers. -/
def closeOnceDo (s : SchedulerState) : Option SchedulerState :=
  if s.onceDone then some s else closeResultsChan { s with onceDone := true }

/-- `Start` (scheduler.go): a no-op when already started or stopped;
otherwise marks the scheduler started, installs the cancel function and
spawns the control loop. -/
def SchedulerState.Start (s : SchedulerState) : SchedulerState :=
  if s.started || s.stopped then s
  else { s with started := true, hasCancel := true, loopRunning := true }

/-- `s.wg.Wait()` inside `Stop`: blocks until the control loop
goroutine has exited.  The loop exits when it observes the cancelled
context, running its deferred `closeOnce`; if the loop were running
with the context never cancelled the wait would block forever
(`none`). -/
def wgWait (s : SchedulerState) : Option SchedulerState :=
  if s.loopRunning then
    if s.ctxCancelled then closeOnceDo { s with loopRunning := false } else none
  else some s

/-- `Stop` (scheduler.go): mark stopped and cancel the context (when a
cancel function exists), wait for the control loop and its deferred
close, then ensure the results channel is closed even if `Start` never
ran.  `none` models a panic or a hang, which reachable states never
produce. -/
def SchedulerState.Stop (s : SchedulerState) : Option SchedulerState :=
  let s1 := if !s.stopped then
      { s with stopped := true, ctxCancelled := s.ctxCancelled || s.hasCancel }
    else s
  (wgWait s1).bind closeOnceDo

/-- The control loop can emit a result onto the stream only while it
runs with an uncancelled context and an open channel. -/
def canEmit (s : SchedulerState) : Bool :=
  s.loopRunning && !s.ctxCancelled && !s.resultsClosed

/-- The lifecycle invariant of reachable scheduler states: the results
channel is closed exactly when the close-once has fired; a running
control loop implies an installed cancel function (the loop is spawned
by `Start`, which installs `s.cancel` first); and a stopped scheduler
has no running loop (`Stop` waits for the loop before returning). -/
def SchedInv (s : SchedulerState) : Prop :=
  s.resultsClosed = s.onceDone
    ∧ (s.loopRunning = true → s.hasCancel = true)
    ∧ (s.stopped = true → s.loopRunning = false)

instance (s : SchedulerState) : Decidable (SchedInv s) := by
  unfold SchedInv
  infer_instance

theorem SchedInv_new : SchedInv newSchedulerState := by decide

theorem SchedInv_start (s : SchedulerState) (h : SchedInv s) : SchedInv s.Start := by
  rcases s with ⟨a, b, c, d, e, f, g⟩
  revert h
  cases a <;> cases b <;> cases c <;> cases d <;> cases e <;> cases f <;> cases g <;> decide

theorem SchedInv_stop (s s' : SchedulerState) (h : SchedInv s) (hs : s.Stop = some s') :
    SchedInv s' := by
  have hg : s' = (s.Stop).getD s := by rw [hs]; rfl
  rw [hg]
  rcases s with ⟨a, b, c, d, e, f, g⟩
  revert h
  cases a <;> cases b <;> cases c <;> cases d <;> cases e <;> cases f <;> cases g <;> decide

/-- **C6.** Scheduler stop lifecycle: under the lifecycle invariant,
`Stop` always returns (no panic, no hang) — in particular `Stop` before
`Start` is a safe no-op; the returned state has the results channel
closed and can emit no further values; a second `Stop` returns the very
same state (so any number of `Stop` calls is safe); and `Start` after
`Stop` is a no-op, so the stream stays closed forever. -/
theorem scheduler_stop_lifecycle (s : SchedulerState) (hinv : SchedInv s) :
    (s.Stop).isSome = true
    ∧ ((s.Stop).getD s).resultsClosed = true
    ∧ canEmit ((s.Stop).getD s) = false
    ∧ ((s.Stop).getD s).Stop = s.Stop
    ∧ ((s.Stop).getD s).Start = (s.Stop).getD s := by
  rcases s with ⟨a, b, c, d, e, f, g⟩
  revert hinv
  cases a <;> cases b <;> cases c <;> cases d <;> cases e <;> cases f <;> cases g <;> decide

/-- Witness for C6 at concrete states: `Stop` before `Start` on a fresh
scheduler succeeds, closes the stream, is idempotent; and the same
holds for `Stop` after `Start`. -/
theorem scheduler_stop_lifecycle_witness :
    (newSchedulerState.Stop).isSome = true
    ∧ ((newSchedulerState.Stop).getD newSchedulerState).resultsClosed = true
    ∧ ((newSchedulerState.Stop).getD newSchedulerState).Stop = newSchedulerState.Stop
    ∧ (newSchedulerState.Start.Stop).isSome = true
    ∧ canEmit ((newSchedulerState.Start.Stop).getD newSchedulerState.Start) = false := by
  have h1 := scheduler_stop_lifecycle newSchedulerState (by decide)
  have h2 := scheduler_stop_lifecycle newSchedulerState.Start (by decide)
  exact ⟨h1.1, h1.2.1, h1.2.2.2.1, h2.1, h2.2.2.1⟩

/-- `Endpoint` (endpoint.go): the public, immutable endpoint
configuration.  Label and header maps are heap references. -/
structure Endpoint where
  name : String
  url : String
  labels : Option Nat
  headers : Option Nat
  timeout : Nat
  extractor : Option StatusExtractor
  method : String
  interval : Nat

/-- `StatusResult` (status.go): the public result type handed to status
callbacks.  `Status` is the status string (`pulseboard.Status` is a
string type). -/
structure PublicStatusResult where
  EndpointName : String
  URL : String
  Status : String
  Labels : Option Nat
  Latency : Nat
  CheckedAt : Int
  Error : Option String
  RawResponse : List Nat
  StatusCode : Int

/-- `copyBytes` (pulseboard.go): a fresh copy of the byte slice.  Byte
slices are modelled as immutable values, so the copy has the same
contents. -/
def copyBytes (b : List Nat) : List Nat := b

/-- `pollerResultToStoreResult` (pulseboard.go): converts a poller
result to a store result.  `Labels` is assigned directly
(`Labels: pr.Labels`), `Latency.Milliseconds()` divides nanoseconds by
10^6, and a non-nil error becomes its message string. -/
def pollerResultToStoreResult (pr : StatusResult) : StoreStatusResult :=
  { Name := pr.EndpointName
    URL := pr.URL
    Status := pr.Status
    Labels := pr.Labels
    ResponseTimeMs := ((pr.Latency / 1000000 : Nat) : Int)
    CheckedAt := pr.CheckedAt
    Error := pr.Error }

/-- `pollerResultToPublicResult` (pulseboard.go): converts the internal
poller result to the public API type, deep-copying the label map and
the byte buffer. -/
def pollerResultToPublicResult (h : LabelHeap) (pr : StatusResult) :
    LabelHeap × PublicStatusResult :=
  let copied := copyMap h pr.Labels
  (copied.1,
    { EndpointName := pr.EndpointName
      URL := pr.URL
      Status := pr.Status
      Labels := copied.2
      Latency := pr.Latency
      CheckedAt := pr.CheckedAt
      Error := pr.Error
      RawResponse := copyBytes pr.RawResponse
      StatusCode := pr.StatusCode })

/-- One iteration of `toPollerEndpoints` (pulseboard.go): converts a
public `Endpoint` to a poller `EndpointInfo`, deep-copying the label
and header maps (`copyMap(ep.labels)`, `copyMap(ep.headers)`).  The
extractor wrapper only converts `Status` to `string`, which the
embedding's extractor type already is. -/
def toPollerEndpoint (h : LabelHeap) (ep : Endpoint) : LabelHeap × EndpointInfo :=
  let labelsCopied := copyMap h ep.labels
  let headersCopied := copyMap labelsCopied.1 ep.headers
  (headersCopied.1,
    { Name := ep.name
      URL := ep.url
      Labels := labelsCopied.2
      Headers := headersCopied.2
      Timeout := ep.timeout
      Extractor := ep.extractor
      Method := ep.method
      Interval := ep.interval })

theorem LabelHeap.read_alloc (h : LabelHeap) (m : LabelMap) :
    (h.alloc m).1.read (h.alloc m).2 = m := by
  show (h.maps ++ [m]).getD h.maps.length [] = m
  exact getD_append_length _ _ _

theorem LabelHeap.read_alloc_lt (h : LabelHeap) (m : LabelMap) (r : Nat)
    (hr : r < h.maps.length) : (h.alloc m).1.read r = h.read r := by
  show (h.maps ++ [m]).getD r [] = h.maps.getD r []
  simp only [List.getD_eq_getElem?_getD]
  rw [List.getElem?_append]
  simp [hr]

/-- A concrete endpoint whose label map lives at heap reference 0. -/
def epLbl : EndpointInfo :=
  { Name := "L", URL := "http://l", Labels := some 0, Headers := none
    Timeout := second, Extractor := none, Method := "", Interval := 0 }

/-- Counterexample to C8 as stated: polling `epLbl` and converting the
result for the store yields a `StatusResult` whose label reference *is*
the source endpoint's label reference — the label map is shared, not
copied, on the scheduler → consumer loop → store path. -/
theorem labels_shared_counterexample :
    (pollerResultToStoreResult (pollEndpoint epLbl ⟨[], 200, 5, none⟩ "c" 0)).Labels
        = epLbl.Labels
    ∧ epLbl.Labels = some 0 := ⟨rfl, rfl⟩

/-- **C8 (amended).** Label-map sharing and copying: on the
scheduler → store path the label map is shared by reference
(`pollEndpoint` assigns `ep.Labels` and `pollerResultToStoreResult`
assigns `pr.Labels` without copying); a deep copy — a fresh reference
with equal contents — is made only when a public `Endpoint` is
converted to a poller `EndpointInfo` and when the public callback
result is produced. -/
theorem labels_sharing_amended (h : LabelHeap) (ep : EndpointInfo) (pub : Endpoint)
    (resp : Response) (correlationID : String) (now : Int) (pr : StatusResult) :
    ((pollEndpoint ep resp correlationID now).Labels = ep.Labels)
    ∧ ((pollerResultToStoreResult pr).Labels = pr.Labels)
    ∧ (∀ r, pub.labels = some r → LabelHeap.Valid h r →
        ∃ r', (toPollerEndpoint h pub).2.Labels = some r'
          ∧ r' ≠ r
          ∧ LabelHeap.read (toPollerEndpoint h pub).1 r' = LabelHeap.read h r)
    ∧ (∀ r, pr.Labels = some r → LabelHeap.Valid h r →
        ∃ r', (pollerResultToPublicResult h pr).2.Labels = some r'
          ∧ r' ≠ r
          ∧ LabelHeap.read (pollerResultToPublicResult h pr).1 r' = LabelHeap.read h r) := by
  refine ⟨?_, rfl, ?_, ?_⟩
  · rcases hre : resp.Error with _ | e
    · rcases hext : ep.Extractor with _ | ex
      · simp [pollEndpoint, hre, hext]
      · rcases hse : safeExtract ex resp.Body resp.StatusCode correlationID with ⟨st, err⟩
        rcases err with _ | e' <;> simp [pollEndpoint, hre, hext, hse]
    · simp [pollEndpoint, hre]
  · intro r hr hvalid
    refine ⟨h.maps.length, ?_, Nat.ne_of_gt hvalid, ?_⟩
    · simp [toPollerEndpoint, copyMap, hr, LabelHeap.alloc]
    · show LabelHeap.read (toPollerEndpoint h pub).1 h.maps.length = _
      unfold toPollerEndpoint
      simp only [copyMap, hr]
      rcases pub.headers with _ | r2
      · simp only [copyMap]
        exact LabelHeap.read_alloc h (h.read r)
      · simp only [copyMap]
        rw [LabelHeap.read_alloc_lt]
        · exact LabelHeap.read_alloc h (h.read r)
        · show h.maps.length < (h.maps ++ [h.read r]).length
          simp
  · intro r hr hvalid
    refine ⟨h.maps.length, ?_, Nat.ne_of_gt hvalid, ?_⟩
    · simp [pollerResultToPublicResult, copyMap, hr, LabelHeap.alloc]
    · show LabelHeap.read (pollerResultToPublicResult h pr).1 h.maps.length = _
      unfold pollerResultToPublicResult
      simp only [copyMap, hr]
      exact LabelHeap.read_alloc h (h.read r)

/-- A concrete public endpoint whose labels live at heap reference 0
of the one-map heap. -/
def pubLbl : Endpoint :=
  { name := "L", url := "http://l", labels := some 0, headers := none
    timeout := second, extractor := none, method := "", interval := 0 }

/-- Witness for the amended C8 at concrete inputs: in a heap holding
one label map, converting `pubLbl` to a poller endpoint allocates the
fresh reference 1 with equal contents, while the scheduler → store path
keeps reference 0 shared. -/
theorem labels_sharing_amended_witness :
    ((pollEndpoint epLbl ⟨[], 200, 5, none⟩ "c" 0).Labels = epLbl.Labels)
    ∧ ((toPollerEndpoint ⟨[[("env", "prod")]]⟩ pubLbl).2.Labels = some 1
        ∧ (1 : Nat) ≠ 0
        ∧ LabelHeap.read (toPollerEndpoint ⟨[[("env", "prod")]]⟩ pubLbl).1 1
            = LabelHeap.read ⟨[[("env", "prod")]]⟩ 0) := by
  have h := labels_sharing_amended ⟨[[("env", "prod")]]⟩ epLbl pubLbl
    ⟨[], 200, 5, none⟩ "c" 0 (pollEndpoint epLbl ⟨[], 200, 5, none⟩ "c" 0)
  refine ⟨h.1, ?_⟩
  obtain ⟨r', hr1, hr2, hr3⟩ := h.2.2.1 0 rfl (by simp [LabelHeap.Valid])
  have : r' = 1 := by
    have : (toPollerEndpoint ⟨[[("env", "prod")]]⟩ pubLbl).2.Labels = some 1 := rfl
    rw [this] at hr1
    injection hr1 with h'
    exact h'.symm
  subst this
  exact ⟨hr1, by simp, hr3⟩

/-- A user status callback (`func(StatusResult)`); `.error d` models a
panic with payload `d`. -/
def StatusCallback : Type := PublicStatusResult → Except String Unit

/-- The observable events of the result-consumer loop in
`PulseBoard.Start`, in the order they happen. -/
inductive ConsumerEvent
  | storeUpdated (name : String)
  | callbackRan (idx : Nat) (name : String)
  | callbackPanicked (idx : Nat) (name : String)
deriving DecidableEq, Repr

/-- `invokeCallbackSafe` (pulseboard.go): calls one status callback
with panic recovery; a panic is logged and never propagates. -/
def invokeCallbackSafe (idx : Nat) (cb : StatusCallback)
    (result : PublicStatusResult) : ConsumerEvent :=
  match cb result with
  | .ok _ => .callbackRan idx result.EndpointName
  | .error _ => .callbackPanicked idx result.EndpointName

/-- The `for _, cb := range pb.statusCallbacks` loop: invokes every
callback in registration order, each behind the panic boundary. -/
def runCallbacks (idx : Nat) (cbs : List StatusCallback)
    (result : PublicStatusResult) : List ConsumerEvent :=
  match cbs with
  | [] => []
  | cb :: rest => invokeCallbackSafe idx cb result :: runCallbacks (idx + 1) rest result

/-- The body of the consumer goroutine in `PulseBoard.Start` for one
result: convert and store it first, then (when callbacks are
registered) convert to the public type and invoke the callbacks in
order.  Returns the new store, the label heap after any conversion, and
the ordered event trace. -/
def processResult (store : MemoryStore) (h : LabelHeap) (cbs : List StatusCallback)
    (pr : StatusResult) : MemoryStore × LabelHeap × List ConsumerEvent :=
  let storeResult := pollerResultToStoreResult pr
  let store1 := store.Update storeResult
  if cbs.isEmpty then
    (store1, h, [ConsumerEvent.storeUpdated storeResult.Name])
  else
    let conv := pollerResultToPublicResult h pr
    (store1, conv.1,
      ConsumerEvent.storeUpdated storeResult.Name :: runCallbacks 0 cbs conv.2)

/-- `for result := range scheduler.Results()`: the consumer loop over a
stream of results. -/
def consumeResults (store : MemoryStore) (h : LabelHeap) (cbs : List StatusCallback) :
    List StatusResult → MemoryStore × LabelHeap × List ConsumerEvent
  | [] => (store, h, [])
  | pr :: rest =>
    let step := processResult store h cbs pr
    let next := consumeResults step.1 step.2.1 cbs rest
    (next.1, next.2.1, step.2.2 ++ next.2.2)

theorem runCallbacks_length (idx : Nat) (cbs : List StatusCallback)
    (result : PublicStatusResult) :
    (runCallbacks idx cbs result).length = cbs.length := by
  induction cbs generalizing idx with
  | nil => rfl
  | cons cb rest ih => simp [runCallbacks, ih]

theorem runCallbacks_get? (idx : Nat) (cbs : List StatusCallback)
    (result : PublicStatusResult) (i : Nat) :
    (runCallbacks idx cbs result).get? i
      = (cbs.get? i).map (fun cb => invokeCallbackSafe (idx + i) cb result) := by
  induction cbs generalizing idx i with
  | nil => simp [runCallbacks]
  | cons cb rest ih =>
    cases i with
    | zero => simp [runCallbacks]
    | succ n =>
      show (runCallbacks (idx + 1) rest result).get? n = _
      rw [ih (idx + 1) n]
      have : idx + 1 + n = idx + (n + 1) := by omega
      rw [this]
      rfl

theorem processResult_events_length (store : MemoryStore) (h : LabelHeap)
    (cbs : List StatusCallback) (pr : StatusResult) :
    (processResult store h cbs pr).2.2.length = cbs.length + 1 := by
  unfold processResult
  rcases hcb : cbs with _ | ⟨cb, rest⟩
  · rfl
  · simp [runCallbacks_length]

/-- **C9.** Consumer loop ordering: for every result consumed from the
scheduler's stream, the store update is applied and its event strictly
precedes every callback event; callbacks run one at a time in
registration order (the event at position `i + 1` is callback `i`'s);
a panicking callback produces a recovered `callbackPanicked` event
instead of propagating — every registered callback still gets its
event, and every later result in the stream is still processed. -/
theorem consumer_loop_ordering (store : MemoryStore) (h : LabelHeap)
    (cbs : List StatusCallback) (pr : StatusResult) :
    ((processResult store h cbs pr).1 = store.Update (pollerResultToStoreResult pr))
    ∧ ((processResult store h cbs pr).2.2.get? 0
        = some (ConsumerEvent.storeUpdated (pollerResultToStoreResult pr).Name))
    ∧ (∀ i, (processResult store h cbs pr).2.2.get? (i + 1)
        = (cbs.get? i).map (fun cb =>
            invokeCallbackSafe i cb (pollerResultToPublicResult h pr).2))
    ∧ ((processResult store h cbs pr).2.2.length = cbs.length + 1)
    ∧ (∀ (cb : StatusCallback) (res : PublicStatusResult) (i : Nat) (d : String),
        cb res = .error d →
          invokeCallbackSafe i cb res = .callbackPanicked i res.EndpointName)
    ∧ (∀ rs : List StatusResult,
        (consumeResults store h cbs rs).2.2.length = rs.length * (cbs.length + 1)) := by
  refine ⟨?_, ?_, ?_, processResult_events_length store h cbs pr, ?_, ?_⟩
  · unfold processResult
    rcases cbs with _ | ⟨cb, rest⟩ <;> rfl
  · unfold processResult
    rcases cbs with _ | ⟨cb, rest⟩ <;> rfl
  · intro i
    unfold processResult
    rcases cbs with _ | ⟨cb, rest⟩
    · simp
    · show (runCallbacks 0 (cb :: rest) _).get? i = _
      rw [runCallbacks_get?]
      simp
  · intro cb res i d hpanic
    simp [invokeCallbackSafe, hpanic]
  · intro rs
    induction rs generalizing store h with
    | nil => simp [consumeResults]
    | cons r rest ih =>
      show ((processResult store h cbs r).2.2 ++ _).length = _
      rw [List.length_append, processResult_events_length, ih]
      simp only [List.length_cons]
      ring

/-- A callback that always panics. -/
def cbPanics : StatusCallback := fun _ => .error "nil pointer dereference"

/-- A callback that always succeeds. -/
def cbOk : StatusCallback := fun _ => .ok ()

/-- Witness for C9 at concrete inputs: processing one result with a
panicking first callback and a healthy second callback stores the
result first, runs both callbacks in order (the panic recovered), and
a two-result stream produces a full event trace. -/
theorem consumer_loop_ordering_witness :
    ((processResult NewMemoryStore ⟨[]⟩ [cbPanics, cbOk]
        (pollEndpoint epPlain ⟨[], 200, 5, none⟩ "c" 0)).2.2.get? 0
      = some (ConsumerEvent.storeUpdated "api"))
    ∧ ((processResult NewMemoryStore ⟨[]⟩ [cbPanics, cbOk]
        (pollEndpoint epPlain ⟨[], 200, 5, none⟩ "c" 0)).2.2.get? 1
      = some (ConsumerEvent.callbackPanicked 0 "api"))
    ∧ ((processResult NewMemoryStore ⟨[]⟩ [cbPanics, cbOk]
        (pollEndpoint epPlain ⟨[], 200, 5, none⟩ "c" 0)).2.2.get? 2
      = some (ConsumerEvent.callbackRan 1 "api"))
    ∧ ((consumeResults NewMemoryStore ⟨[]⟩ [cbPanics, cbOk]
        [pollEndpoint epPlain ⟨[], 200, 5, none⟩ "c" 0,
         pollEndpoint epPlain ⟨[], 200, 5, none⟩ "c" 0]).2.2.length = 6) := by
  have h := consumer_loop_ordering NewMemoryStore ⟨[]⟩ [cbPanics, cbOk]
    (pollEndpoint epPlain ⟨[], 200, 5, none⟩ "c" 0)
  refine ⟨?_, ?_, ?_, ?_⟩
  · rw [h.2.1]
    rfl
  · rw [h.2.2.1 0]
    rfl
  · rw [h.2.2.1 1]
    rfl
  · rw [h.2.2.2.2.2 [pollEndpoint epPlain ⟨[], 200, 5, none⟩ "c" 0,
      pollEndpoint epPlain ⟨[], 200, 5, none⟩ "c" 0]]
    rfl

/-- `pbConfig` (options.go): the mutable state during `PulseBoard`
construction. -/
structure pbConfig where
  title : String
  endpoints : List Endpoint
  pollingInterval : Int
  port : Int
  maxConcurrency : Int
  statusCallbacks : List StatusCallback

/-- Default polling interval (15 seconds, in nanoseconds). -/
def defaultPollingInterval : Int := 15 * 1000000000

/-- Default dashboard port. -/
def defaultPort : Int := 8080

/-- Default maximum number of concurrent probes. -/
def defaultMaxConcurrency : Int := 10

/-- The functional options accepted by `New` (options.go), as data.
`withLogger present` records whether a non-nil logger was passed. -/
inductive PBOption
  | withEndpoint (e : Endpoint)
  | withEndpoints (es : List Endpoint)
  | withPollingInterval (d : Int)
  | withPort (port : Int)
  | withMaxConcurrency (n : Int)
  | withLogger (present : Bool)
  | withStatusCallback (cb : Option StatusCallback)
  | withTitle (t : String)

/-- Application of one option to the configuration, with each option's
validation (options.go). -/
def applyOption (cfg : pbConfig) (opt : PBOption) : Except String pbConfig :=
  match opt with
  | .withEndpoint e => .ok { cfg with endpoints := cfg.endpoints ++ [e] }
  | .withEndpoints es => .ok { cfg with endpoints := cfg.endpoints ++ es }
  | .withPollingInterval d =>
    if d ≤ 0 then .error "polling interval must be positive"
    else .ok { cfg with pollingInterval := d }
  | .withPort p =>
    if p < 1 ∨ p > 65535 then .error "port must be between 1 and 65535"
    else .ok { cfg with port := p }
  | .withMaxConcurrency n =>
    if n ≤ 0 then .error "max concurrency must be positive"
    else .ok { cfg with maxConcurrency := n }
  | .withLogger present =>
    if present then .ok cfg else .error "logger cannot be nil"
  | .withStatusCallback cb =>
    match cb with
    | none => .ok cfg
    | some c => .ok { cfg with statusCallbacks := cfg.statusCallbacks ++ [c] }
  | .withTitle t => .ok { cfg with title := t }

/-- The `for _, opt := range opts` loop of `New`: apply each option in
order, stopping at the first error. -/
def applyOptions : pbConfig → List PBOption → Except String pbConfig
  | cfg, [] => .ok cfg
  | cfg, opt :: rest =>
    match applyOption cfg opt with
    | .error e => .error e
    | .ok cfg' => applyOptions cfg' rest

/-- The configuration `New` starts from (pulseboard.go). -/
def initialConfig : pbConfig :=
  ⟨"", [], defaultPollingInterval, defaultPort, defaultMaxConcurrency, []⟩

/-- `PulseBoard` (pulseboard.go): the constructed instance. -/
structure PulseBoard where
  title : String
  endpoints : List Endpoint
  pollingInterval : Int
  port : Int
  maxConcurrency : Int
  statusCallbacks : List StatusCallback

/-- The duplicate-name scan of `New` (`seen := make(map[string]bool)`):
returns the first endpoint name already seen, if any. -/
def findDuplicateName (endpoints : List Endpoint) (seen : List String) : Option String :=
  match endpoints with
  | [] => none
  | e :: rest =>
    if e.name ∈ seen then some e.name else findDuplicateName rest (e.name :: seen)

/-- `New` (pulseboard.go): apply the options, then validate that at
least one endpoint is configured, that endpoint names are unique, and
that the port is in range; only then construct the instance. -/
def New (opts : List PBOption) : Except String PulseBoard :=
  match applyOptions initialConfig opts with
  | .error e => .error e
  | .ok cfg =>
    if cfg.endpoints.length = 0 then .error "at least one endpoint is required"
    else
      match findDuplicateName cfg.endpoints [] with
      | some n => .error ("duplicate endpoint name: " ++ n)
      | none =>
        if cfg.port < 1 ∨ cfg.port > 65535 then
          .error "port must be between 1 and 65535"
        else
          .ok ⟨cfg.title, cfg.endpoints, cfg.pollingInterval, cfg.port,
            cfg.maxConcurrency, cfg.statusCallbacks⟩

/-- When the duplicate scan finds nothing, the endpoint names are
unique and none of them is in the seen set. -/
theorem findDuplicateName_none (endpoints : List Endpoint) (seen : List String)
    (h : findDuplicateName endpoints seen = none) :
    (endpoints.map Endpoint.name).Nodup
      ∧ ∀ n ∈ endpoints.map Endpoint.name, n ∉ seen := by
  induction endpoints generalizing seen with
  | nil => simp
  | cons e rest ih =>
    by_cases hmem : e.name ∈ seen
    · rw [show findDuplicateName (e :: rest) seen = some e.name from by
        simp [findDuplicateName, hmem]] at h
      exact absurd h (by simp)
    · rw [show findDuplicateName (e :: rest) seen
          = findDuplicateName rest (e.name :: seen) from by
        simp [findDuplicateName, hmem]] at h
      obtain ⟨hnd, hseen⟩ := ih (e.name :: seen) h
      refine ⟨?_, ?_⟩
      · rw [List.map_cons, List.nodup_cons]
        refine ⟨fun habs => ?_, hnd⟩
        exact (hseen e.name habs) (List.mem_cons_self _ _)
      · intro n hn
        rw [List.map_cons] at hn
        rcases List.mem_cons.mp hn with h' | h'
        · rw [h']; exact hmem
        · exact fun hs => (hseen n h') (List.mem_cons_of_mem _ hs)

/-- **C10.** The public constructor `New` validates endpoint-name
uniqueness: if the configuration built by the options contains two
distinct positions with the same endpoint name, `New` returns an error
and constructs no `PulseBoard` instance. -/
theorem New_rejects_duplicate_names (opts : List PBOption) (cfg : pbConfig)
    (happ : applyOptions initialConfig opts = .ok cfg)
    (i j : Nat) (hi : i < cfg.endpoints.length) (hj : j < cfg.endpoints.length)
    (hij : i ≠ j)
    (hname : (cfg.endpoints.get ⟨i, hi⟩).name = (cfg.endpoints.get ⟨j, hj⟩).name) :
    (∃ msg, New opts = Except.error msg) ∧ ∀ pb, New opts ≠ Except.ok pb := by
  have hnotnodup : ¬(cfg.endpoints.map Endpoint.name).Nodup := by
    intro hnd
    have hi' : i < (cfg.endpoints.map Endpoint.name).length := by simpa using hi
    have hj' : j < (cfg.endpoints.map Endpoint.name).length := by simpa using hj
    have hgi : (cfg.endpoints.map Endpoint.name).get ⟨i, hi'⟩
        = (cfg.endpoints.get ⟨i, hi⟩).name := by
      simp
    have hgj : (cfg.endpoints.map Endpoint.name).get ⟨j, hj'⟩
        = (cfg.endpoints.get ⟨j, hj⟩).name := by
      simp
    have heq : (cfg.endpoints.map Endpoint.name).get ⟨i, hi'⟩
        = (cfg.endpoints.map Endpoint.name).get ⟨j, hj'⟩ := by
      rw [hgi, hgj, hname]
    have := List.Nodup.get_inj_iff hnd |>.mp heq
    exact hij (by simpa using this)
  have herr : ∃ msg, New opts = Except.error msg := by
    unfold New
    rw [happ]
    by_cases hlen : cfg.endpoints.length = 0
    · exact ⟨"at least one endpoint is required", by simp [hlen]⟩
    · rcases hfind : findDuplicateName cfg.endpoints [] with _ | n
      · exact absurd (findDuplicateName_none cfg.endpoints [] hfind).1 hnotnodup
      · exact ⟨"duplicate endpoint name: " ++ n, by simp [hlen, hfind]⟩
  obtain ⟨msg, hmsg⟩ := herr
  exact ⟨⟨msg, hmsg⟩, fun pb hpb => by rw [hmsg] at hpb; exact Except.noConfusion hpb⟩

/-- A first endpoint named `"dup"`. -/
def eDup1 : Endpoint :=
  { name := "dup", url := "http://one", labels := none, headers := none
    timeout := second, extractor := none, method := "", interval := 0 }

/-- A second, different endpoint also named `"dup"`. -/
def eDup2 : Endpoint :=
  { name := "dup", url := "http://two", labels := none, headers := none
    timeout := second, extractor := none, method := "", interval := 0 }

/-- The configuration produced by the two `withEndpoint` options. -/
def cfgDup : pbConfig :=
  ⟨"", [eDup1, eDup2], defaultPollingInterval, defaultPort, defaultMaxConcurrency, []⟩

/-- An arbitrary instance, to state that `New` never returns `ok`. -/
def pbDummy : PulseBoard :=
  ⟨"", [], defaultPollingInterval, defaultPort, defaultMaxConcurrency, []⟩

/-- Witness for C10 at concrete inputs: two options adding endpoints
that share the name `"dup"` make `New` fail — it returns no
instance. -/
theorem New_rejects_duplicate_names_witness :
    New [PBOption.withEndpoint eDup1, PBOption.withEndpoint eDup2]
      ≠ Except.ok pbDummy := by
  have happ : applyOptions initialConfig
      [PBOption.withEndpoint eDup1, PBOption.withEndpoint eDup2] = .ok cfgDup := rfl
  have h := New_rejects_duplicate_names
    [PBOption.withEndpoint eDup1, PBOption.withEndpoint eDup2] cfgDup happ
    0 1 (by simp [cfgDup]) (by simp [cfgDup]) (by simp) rfl
  exact h.2 pbDummy

end Pulseboard
